import Mathlib

/-!
Shallow embedding of the TinyG configuration subsystem
(src/firmware/tinyg/config.c) and proofs about the claims of its
natural-language specification.

Conventions of the embedding:
* C strings are byte lists (`List ℕ`) holding the characters before the
  terminating NUL; a NUL byte is the value 0 and never occurs inside a
  well-formed string.
* The `float` fields of the C code are modelled as rationals; the places
  where IEEE-754 single precision rounding is semantically decisive
  (uint32 ↔ float conversions in get_int/set_int) apply an explicit
  round-to-nearest-even function on naturals.
* Backing storage (`target` pointers), the nonvolatile record array and the
  shared string buffer are modelled as functions from addresses to values.
-/

namespace TinyGCfg

/-- Status codes returned by config operations (stat_t values used in config.c). -/
inductive Stat
  | ok
  | noop
  | internalRangeError
  | inputValueUnsupported
  | bufferFull
  | unrecognizedCommand
  deriving DecidableEq, Repr

/-- Value kinds carried by a config node (TYPE_EMPTY .. TYPE_STRING). -/
inductive ValueType
  | empty
  | null
  | parent
  | integer
  | data
  | float
  | string
  deriving DecidableEq, Repr

/-- Active units mode of the machine (G20/G21). -/
inductive UnitsMode
  | millimeters
  | inches
  deriving DecidableEq, Repr

/-- Millimeters per inch, the conversion constant MM_PER_INCH. -/
def MM_PER_INCH : ℚ := 254 / 10

/-- TOKEN_LEN: maximum number of characters of a token (mnemonic). -/
def TOKEN_LEN : ℕ := 5

/-- Bytes of a C string, without the terminating NUL. -/
abbrev Chars := List ℕ

/-- The nvObj_t structure: one typed config node.  The pv/nx linkage of the
C struct is represented structurally by the lists the nodes live in. -/
structure NvObj where
  index : ℕ
  token : Chars
  group : Chars
  depth : ℕ
  valuetype : ValueType
  value : ℚ
  precision : ℤ
  stringp : Option ℕ
  deriving DecidableEq, Repr

/-- A cleared node, as produced by nv_reset_nvObj for a root node. -/
def emptyNv : NvObj :=
  { index := 0, token := [], group := [], depth := 0, valuetype := .empty,
    value := 0, precision := 0, stringp := none }

/-- Behavior flags of a descriptor: finit is F_INITIALIZE, fpersist is
F_PERSIST, fnostrip is F_NOSTRIP. -/
structure CfgFlags where
  finit : Bool
  fpersist : Bool
  fnostrip : Bool
  deriving DecidableEq, Repr

/-- The bound getter of a descriptor (one of the get functions of config.c). -/
inductive GetKind
  | nul
  | ui8
  | int
  | flt
  | flu
  deriving DecidableEq, Repr

/-- The bound setter of a descriptor (one of the set functions of config.c). -/
inductive SetKind
  | nul
  | ui8
  | s01
  | s012
  | s0123
  | int
  | flt
  | flu
  deriving DecidableEq, Repr

/-- One entry of the descriptor table cfgArray: token, group, flags, display
precision, compiled default, bound get/set behaviors and the address of the
backing storage location. -/
structure CfgItem where
  group : Chars
  token : Chars
  flags : CfgFlags
  precision : ℤ
  def_value : ℚ
  getK : GetKind
  setK : SetKind
  target : ℕ
  deriving DecidableEq, Repr

/-- Default descriptor used for out-of-range getD reads (never semantically
relevant: every dispatch is guarded by an index bound first). -/
def dfltItem : CfgItem :=
  { group := [], token := [], flags := ⟨false, false, false⟩, precision := 0,
    def_value := 0, getK := .nul, setK := .nul, target := 0 }

/-- Table lookup cfgArray[i]. -/
def itemAt (table : List CfgItem) (i : ℕ) : CfgItem :=
  table.getD i dfltItem

/-- Pointwise update of an address-indexed store. -/
def updateStore (st : ℕ → ℚ) (a : ℕ) (v : ℚ) : ℕ → ℚ :=
  fun b => if b = a then v else st b

/-- C cast of a nonnegative float to uint8_t: truncation toward zero, then
the 8-bit range (negative input is undefined behavior in C; modelled as 0). -/
def truncU8 (q : ℚ) : ℕ := q.floor.toNat % 256

/-- C cast of a nonnegative float to uint32_t: truncation toward zero, then
the 32-bit range. -/
def truncU32 (q : ℚ) : ℕ := q.floor.toNat % 2 ^ 32

/-- Rounding of a natural number to the nearest IEEE-754 binary32 value
(ties to even), the conversion C performs when a uint32_t is assigned to a
float.  Integers up to 2^24 are exactly representable; above that the
24-bit significand drops low bits. -/
def roundF32Nat (n : ℕ) : ℕ :=
  if n ≤ 2 ^ 24 then n
  else
    let e := Nat.log2 n - 23
    let q := n / 2 ^ e
    let r := n % 2 ^ e
    let h := 2 ^ (e - 1)
    if r < h then q * 2 ^ e
    else if h < r then (q + 1) * 2 ^ e
    else if q % 2 = 0 then q * 2 ^ e else (q + 1) * 2 ^ e

/-- Reading a target cell that has C type uint32_t. -/
def cellU32 (q : ℚ) : ℕ := q.floor.toNat % 2 ^ 32

/-- Placing a caller-supplied 32-bit integer into the node's float-typed
numeric value field: the value is rounded to binary32 on the way in. -/
def intToNvValue (v : ℕ) : ℚ := (roundF32Nat v : ℚ)

/-- Result of running a bound setter: status, updated backing storage, and
the (possibly mutated) node. -/
structure SetResult where
  stat : Stat
  store : ℕ → ℚ
  nv : NvObj

/-- set_nul(): set nothing, return STAT_NOOP. -/
def set_nul (st : ℕ → ℚ) (nv : NvObj) : SetResult :=
  { stat := .noop, store := st, nv := nv }

/-- set_ui8(): write the node value to the uint8_t target (C truncation),
mark the node as integer kind. -/
def set_ui8 (table : List CfgItem) (st : ℕ → ℚ) (nv : NvObj) : SetResult :=
  let d := itemAt table nv.index
  { stat := .ok,
    store := updateStore st d.target ((truncU8 nv.value : ℕ) : ℚ),
    nv := { nv with valuetype := .integer } }

/-- set_01(): reject values greater than 1, otherwise set_ui8. -/
def set_01 (table : List CfgItem) (st : ℕ → ℚ) (nv : NvObj) : SetResult :=
  if nv.value > 1 then { stat := .inputValueUnsupported, store := st, nv := nv }
  else set_ui8 table st nv

/-- set_012(): reject values greater than 2, otherwise set_ui8. -/
def set_012 (table : List CfgItem) (st : ℕ → ℚ) (nv : NvObj) : SetResult :=
  if nv.value > 2 then { stat := .inputValueUnsupported, store := st, nv := nv }
  else set_ui8 table st nv

/-- set_0123(): reject values greater than 3, otherwise set_ui8. -/
def set_0123 (table : List CfgItem) (st : ℕ → ℚ) (nv : NvObj) : SetResult :=
  if nv.value > 3 then { stat := .inputValueUnsupported, store := st, nv := nv }
  else set_ui8 table st nv

/-- set_int(): write the node value to the uint32_t target (C truncation),
mark the node as integer kind. -/
def set_int (table : List CfgItem) (st : ℕ → ℚ) (nv : NvObj) : SetResult :=
  let d := itemAt table nv.index
  { stat := .ok,
    store := updateStore st d.target ((truncU32 nv.value : ℕ) : ℚ),
    nv := { nv with valuetype := .integer } }

/-- set_flt(): write the node value to the float target, refresh the node's
precision from the table, mark as float kind. -/
def set_flt (table : List CfgItem) (st : ℕ → ℚ) (nv : NvObj) : SetResult :=
  let d := itemAt table nv.index
  { stat := .ok,
    store := updateStore st d.target nv.value,
    nv := { nv with precision := d.precision, valuetype := .float } }

/-- set_flu(): units-aware float setter.  In inches mode the code first
multiplies nv->value by MM_PER_INCH in place, then writes nv->value to the
target; so the node's own value field ends up holding the converted
(millimeter) quantity. -/
def set_flu (units : UnitsMode) (table : List CfgItem) (st : ℕ → ℚ)
    (nv : NvObj) : SetResult :=
  let d := itemAt table nv.index
  let v := if units = .inches then nv.value * MM_PER_INCH else nv.value
  { stat := .ok,
    store := updateStore st d.target v,
    nv := { nv with value := v, precision := d.precision, valuetype := .float } }

/-- Dispatch of a descriptor's bound setter. -/
def applySet (units : UnitsMode) (table : List CfgItem) (k : SetKind)
    (st : ℕ → ℚ) (nv : NvObj) : SetResult :=
  match k with
  | .nul => set_nul st nv
  | .ui8 => set_ui8 table st nv
  | .s01 => set_01 table st nv
  | .s012 => set_012 table st nv
  | .s0123 => set_0123 table st nv
  | .int => set_int table st nv
  | .flt => set_flt table st nv
  | .flu => set_flu units table st nv

/-- Result of running a bound getter: status and the populated node. -/
structure GetResult where
  stat : Stat
  nv : NvObj

/-- get_nul(): mark the node as null kind, return STAT_NOOP. -/
def get_nul (nv : NvObj) : GetResult :=
  { stat := .noop, nv := { nv with valuetype := .null } }

/-- get_ui8(): read the uint8_t target into the node value (exact in float). -/
def get_ui8 (table : List CfgItem) (st : ℕ → ℚ) (nv : NvObj) : GetResult :=
  let d := itemAt table nv.index
  { stat := .ok, nv := { nv with value := st d.target, valuetype := .integer } }

/-- get_int(): read the uint32_t target into the float-typed node value;
the uint32-to-float conversion rounds to the nearest binary32. -/
def get_int (table : List CfgItem) (st : ℕ → ℚ) (nv : NvObj) : GetResult :=
  let d := itemAt table nv.index
  { stat := .ok,
    nv := { nv with value := (roundF32Nat (cellU32 (st d.target)) : ℚ),
                    valuetype := .integer } }

/-- get_flt(): read the float target into the node value, refresh precision. -/
def get_flt (table : List CfgItem) (st : ℕ → ℚ) (nv : NvObj) : GetResult :=
  let d := itemAt table nv.index
  { stat := .ok,
    nv := { nv with value := st d.target, precision := d.precision,
                    valuetype := .float } }

/-- get_flu(): units-aware float getter.  The source simply returns
get_flt(nv): the G20/G21 conversion on read is commented out, so the stored
canonical value is reported unchanged in every units mode. -/
def get_flu (_units : UnitsMode) (table : List CfgItem) (st : ℕ → ℚ)
    (nv : NvObj) : GetResult :=
  get_flt table st nv

/-- Dispatch of a descriptor's bound getter. -/
def applyGet (units : UnitsMode) (table : List CfgItem) (k : GetKind)
    (st : ℕ → ℚ) (nv : NvObj) : GetResult :=
  match k with
  | .nul => get_nul nv
  | .ui8 => get_ui8 table st nv
  | .int => get_int table st nv
  | .flt => get_flt table st nv
  | .flu => get_flu units table st nv

/-- Machine state seen by config.c: the descriptor table split into its
single-valued region followed by the group-entry region, the active units
mode, the backing storage cells, the nonvolatile record array (indexed by
descriptor index, record 0 holding the build marker) and the firmware build
identifier cs.fw_build. -/
structure Machine where
  singles : List CfgItem
  groups : List CfgItem
  units : UnitsMode
  store : ℕ → ℚ
  nvm : ℕ → ℚ
  fw_build : ℚ

/-- The full descriptor table cfgArray. -/
def mtable (m : Machine) : List CfgItem := m.singles ++ m.groups

/-- nv_index_max(): the descriptor count NV_INDEX_MAX. -/
def nv_index_max (m : Machine) : ℕ := (mtable m).length

/-- Modelled from the spec: nv_index_is_single(i) (a macro of the header,
not in src) — the single-valued descriptors precede the group entries, so
an index is single exactly when it lies in the singles region. -/
def nv_index_is_single (m : Machine) (i : ℕ) : Bool := i < m.singles.length

/-- Modelled from the spec: nv_index_lt_groups(i) (a macro of the header,
not in src) — true for indices before the first group entry; persist is
"skipped for any node addressing a group". -/
def nv_index_lt_groups (m : Machine) (i : ℕ) : Bool := i < m.singles.length

/-- nv_set(): gatekeeper write.  Bounds-checks the resolved index, then
dispatches the descriptor's bound setter. -/
def nv_set (m : Machine) (nv : NvObj) : Stat × Machine × NvObj :=
  if nv.index ≥ nv_index_max m then (.internalRangeError, m, nv)
  else
    let d := itemAt (mtable m) nv.index
    let r := applySet m.units (mtable m) d.setK m.store nv
    (r.stat, { m with store := r.store }, r.nv)

/-- nv_get(): gatekeeper read.  Bounds-checks the resolved index, then
dispatches the descriptor's bound getter. -/
def nv_get (m : Machine) (nv : NvObj) : Stat × NvObj :=
  if nv.index ≥ nv_index_max m then (.internalRangeError, nv)
  else
    let d := itemAt (mtable m) nv.index
    let r := applyGet m.units (mtable m) d.getK m.store nv
    (r.stat, r.nv)

/-- Modelled from the spec: the bound print behavior of a descriptor (the
concrete printers live outside src); dispatching it emits one formatted
record for the node, recorded here as the descriptor index. -/
def printEvents (nv : NvObj) : List ℕ := [nv.index]

/-- nv_print(): gatekeeper print.  Performs nothing when the index is out
of range, otherwise dispatches the bound print behavior. -/
def nv_print (m : Machine) (nv : NvObj) : List ℕ :=
  if nv.index ≥ nv_index_max m then [] else printEvents nv

/-- Modelled from the spec: write_record(index, value) of the nonvolatile
store — persists the node's value at the record position equal to the
descriptor index. -/
def write_persistent_value (m : Machine) (nv : NvObj) : Machine :=
  { m with nvm := updateStore m.nvm nv.index nv.value }

/-- Modelled from the spec: read_record(index) of the nonvolatile store —
loads the record at the node's index into the node's value. -/
def read_persistent_value (m : Machine) (nv : NvObj) : NvObj :=
  { nv with value := m.nvm nv.index }

/-- nv_persist(): gatekeeper persist.  Skipped for indices at or past the
group region; otherwise delegates to the nonvolatile write service exactly
when the descriptor carries F_PERSIST.  (The __DISABLE_PERSISTENCE build
cutout is not modelled.) -/
def nv_persist (m : Machine) (nv : NvObj) : Machine :=
  if ¬ nv_index_lt_groups m nv.index then m
  else if (itemAt (mtable m) nv.index).flags.fpersist then
    write_persistent_value m nv
  else m

/-- Modelled from the spec: fp_FALSE of the utility header (not in src) —
a float interpreted as boolean false when (numerically) below a small
epsilon. -/
def fp_FALSE (q : ℚ) : Bool := q < 1 / 100000

/-- One iteration of the set_defaults() loop at descriptor index i: when
the descriptor carries F_INITIALIZE, load the compiled default into the
node, copy the token from the table, dispatch nv_set, then nv_persist. -/
def defaultsStep (m : Machine) (nv : NvObj) (i : ℕ) : Machine × NvObj :=
  let d := itemAt (mtable m) i
  if d.flags.finit then
    let nv1 := { nv with index := i, value := d.def_value,
                         token := d.token.take TOKEN_LEN }
    let r := nv_set m nv1
    let m2 := nv_persist r.2.1 r.2.2
    (m2, r.2.2)
  else (m, nv)

/-- The set_defaults() loop over a list of descriptor indices. -/
def runDefaults (m : Machine) (nv : NvObj) : List ℕ → Machine × NvObj
  | [] => (m, nv)
  | i :: rest =>
    let p := defaultsStep m nv i
    runDefaults p.1 p.2 rest

/-- set_defaults(): failsafe on a near-zero node value (help display only),
otherwise force millimeter mode and run the defaults loop over every
single-valued descriptor index. -/
def set_defaults (m : Machine) (nv : NvObj) : Stat × Machine × NvObj :=
  if fp_FALSE nv.value then (.ok, m, nv)
  else
    let m0 := { m with units := .millimeters }
    let p := runDefaults m0 nv (List.range m0.singles.length)
    (.ok, p.1, p.2)

/-- One iteration of the config_init() load loop at descriptor index i:
when the descriptor carries F_INITIALIZE, copy the token from the table,
read the nonvolatile record into the node, then dispatch nv_set. -/
def loadStep (m : Machine) (nv : NvObj) (i : ℕ) : Machine × NvObj :=
  let d := itemAt (mtable m) i
  if d.flags.finit then
    let nv1 := { nv with index := i, token := d.token.take TOKEN_LEN }
    let nv2 := read_persistent_value m nv1
    let r := nv_set m nv2
    (r.2.1, r.2.2)
  else (m, nv)

/-- The config_init() load loop over a list of descriptor indices. -/
def runLoad (m : Machine) (nv : NvObj) : List ℕ → Machine × NvObj
  | [] => (m, nv)
  | i :: rest =>
    let p := loadStep m nv i
    runLoad p.1 p.2 rest

/-- config_init(): boot sequencer.  Forces millimeter mode, reads record 0
(the stored version marker) and compares it with the current build
identifier: on mismatch it seeds defaults via set_defaults (with the node
value forced to true), on match it loads every F_INITIALIZE descriptor's
backing storage from its nonvolatile record. -/
def config_init (m : Machine) : Machine :=
  let m0 := { m with units := .millimeters }
  let nv1 := read_persistent_value m0 { emptyNv with index := 0 }
  if nv1.value ≠ m0.fw_build then
    (set_defaults m0 { nv1 with value := 1 }).2.1
  else
    (runLoad m0 nv1 (List.range m0.singles.length)).1

/-- The shared string arena nvStr: current write offset wp and the byte
buffer (modelled as a function from byte index to byte value; the
capacity NV_SHARED_STRING_LEN is passed explicitly since the header with
the array declaration is outside src).  Valid buffer indices of a
capacity-cap arena are 0 .. cap-1. -/
structure NvStr where
  wp : ℕ
  buf : ℕ → ℕ

/-- Write the given bytes into the buffer at consecutive indices starting
at off. -/
def writeBytes (f : ℕ → ℕ) (off : ℕ) : List ℕ → (ℕ → ℕ)
  | [] => f
  | b :: rest => writeBytes (fun a => if a = off then b else f a) (off + 1) rest

/-- Result of nv_copy_string: status, updated arena, updated node. -/
structure CopyResult where
  stat : Stat
  str : NvStr
  nv : NvObj

/-- nv_copy_string(): if the current write offset plus the string length
exceeds NV_SHARED_STRING_LEN, fail with BUFFER_FULL leaving everything
unchanged; otherwise strcpy the string (its terminating NUL included) at
the write offset, advance the offset past the terminator, and link the
node's string reference to where the copy begins. -/
def nv_copy_string (cap : ℕ) (s : NvStr) (nv : NvObj) (src : Chars) :
    CopyResult :=
  if s.wp + src.length > cap then { stat := .bufferFull, str := s, nv := nv }
  else
    let dst := s.wp
    { stat := .ok,
      str := { wp := s.wp + src.length + 1,
               buf := writeBytes s.buf dst (src ++ [0]) },
      nv := { nv with stringp := some dst } }

/-- NO_MATCH: the not-found sentinel of the resolver (defined in the header
outside src as the maximal index value). -/
def NO_MATCH : ℕ := 65535

/-- Byte of a C string at position k: the character when k is inside the
string, NUL (0) once at or past its terminator (the fixed-width token
arrays of the table are NUL padded). -/
def charAt (l : Chars) (k : ℕ) : ℕ := l.getD k 0

/-- The fixed-width early-terminating comparison of nv_get_index(): up to 5
leading characters of the stored token t against the query string s.  At
each position 1..4, termination of both strings together declares a match
and a character mismatch rejects; surviving all five positions is a match. -/
def tokMatch (t s : Chars) : Bool :=
  if charAt t 0 ≠ charAt s 0 then false
  else if charAt t 1 = 0 ∧ charAt s 1 = 0 then true
  else if charAt t 1 ≠ charAt s 1 then false
  else if charAt t 2 = 0 ∧ charAt s 2 = 0 then true
  else if charAt t 2 ≠ charAt s 2 then false
  else if charAt t 3 = 0 ∧ charAt s 3 = 0 then true
  else if charAt t 3 ≠ charAt s 3 then false
  else if charAt t 4 = 0 ∧ charAt s 4 = 0 then true
  else if charAt t 4 ≠ charAt s 4 then false
  else true

/-- The linear scan of nv_get_index over the remaining table entries, k
being the index of the first of them. -/
def scanIndex (s : Chars) : List CfgItem → ℕ → ℕ
  | [], _ => NO_MATCH
  | d :: rest, k => if tokMatch d.token s then k else scanIndex s rest (k + 1)

/-- nv_get_index(): concatenate group then token and linearly scan the
descriptor table for the first entry whose stored token matches under
tokMatch; NO_MATCH when the full table is scanned without a match. -/
def nv_get_index (table : List CfgItem) (group token : Chars) : ℕ :=
  scanIndex (group ++ token) table 0

/-- Scan of the node body for the first empty slot (the forward walk of the
nv_add functions); none when every slot is occupied. -/
def findEmptySlot : List NvObj → Option ℕ
  | [] => none
  | nv :: rest =>
    if nv.valuetype ≠ .empty then (findEmptySlot rest).map (· + 1)
    else some 0

/-- Result of nv_add_string: the populated node (none on failure), the
updated arena and the updated body. -/
structure AddStringResult where
  node : Option NvObj
  str : NvStr
  body : List NvObj

/-- nv_add_string(): find the first empty body slot, strncpy the token into
it, copy the string into the arena; on arena failure return no node (the
token write to the slot has already happened); on success resolve the
node's index from its token, mark it as string kind and return it. -/
def nv_add_string (cap : ℕ) (table : List CfgItem) (s : NvStr)
    (body : List NvObj) (token src : Chars) : AddStringResult :=
  match findEmptySlot body with
  | none => { node := none, str := s, body := body }
  | some i =>
    let slot := body.getD i emptyNv
    let slot1 := { slot with token := token.take TOKEN_LEN }
    let r := nv_copy_string cap s slot1 src
    if r.stat ≠ .ok then
      { node := none, str := r.str, body := body.set i slot1 }
    else
      let slot2 := { r.nv with index := nv_get_index table [] slot1.token,
                               valuetype := .string }
      { node := some slot2, str := r.str, body := body.set i slot2 }

/-- Depth rule of nv_reset_nvObj(): one more than the predecessor when the
predecessor is a parent marker, the predecessor's depth otherwise. -/
def childDepth (pvDepth : ℕ) (pvType : ValueType) : ℕ :=
  if pvType = .parent then pvDepth + 1 else pvDepth

/-- nv_reset_nvObj(): clear one node's fields while recomputing its depth
from its predecessor (depth 0 when it has none). -/
def nv_reset_nvObj (pv : Option (ℕ × ValueType)) : NvObj :=
  { emptyNv with
      depth := match pv with
               | none => 0
               | some p => childDepth p.1 p.2 }

/-- nv_get_nvObj(): populate a node from its descriptor index — reset it
(preserving the index), copy token and group from the table, blank the
group when the descriptor carries F_NOSTRIP else strip the group from the
front of the token, then dispatch the bound getter to fill in the value. -/
def nv_get_nvObj (m : Machine) (nv : NvObj) (pv : Option (ℕ × ValueType)) :
    NvObj :=
  if nv.index ≥ nv_index_max m then nv
  else
    let tmp := nv.index
    let nv1 := { nv_reset_nvObj pv with index := tmp }
    let d := itemAt (mtable m) tmp
    let nv2 : NvObj := { nv1 with token := d.token, group := d.group }
    let nv3 : NvObj :=
      if d.group ≠ [] then
        if d.flags.fnostrip then { nv2 with group := [] }
        else { nv2 with token := nv2.token.drop nv2.group.length }
      else nv2
    (applyGet m.units (mtable m) d.getK m.store nv3).nv

/-- The child-producing loop of get_grp() over a list of descriptor
indices, threading the predecessor's depth and kind (the pv link of the
slot each child lands in). -/
def grpChildren (m : Machine) (query : Chars) :
    List ℕ → ℕ → ValueType → List NvObj
  | [], _, _ => []
  | i :: rest, pvD, pvT =>
    if (itemAt (mtable m) i).group = query then
      let c := nv_get_nvObj m { emptyNv with index := i } (some (pvD, pvT))
      c :: grpChildren m query rest c.depth c.valuetype
    else grpChildren m query rest pvD pvT

/-- get_grp(): group expansion for read.  The parent node (whose token
holds the group name) is marked as a parent marker, then every
single-valued descriptor whose group field equals that name yields a child
node populated via nv_get_nvObj. -/
def get_grp (m : Machine) (nv : NvObj) : Stat × NvObj × List NvObj :=
  let parent := { nv with valuetype := .parent }
  (.ok, parent,
   grpChildren m nv.token (List.range m.singles.length)
     parent.depth parent.valuetype)

/-- A setter kind stores the given node value into its target exactly and
leaves the node's numeric value unchanged, when run in millimeter mode:
true for the float setters, and for the integer/uint8/range setters when
the value is an integer of the respective range. -/
def storesExactly (k : SetKind) (v : ℚ) : Bool :=
  match k with
  | .nul => false
  | .flt => true
  | .flu => true
  | .int => v.den == 1 && decide (0 ≤ v.num) && decide (v.num < 2 ^ 32)
  | .ui8 => v.den == 1 && decide (0 ≤ v.num) && decide (v.num < 256)
  | .s01 => v == 0 || v == 1
  | .s012 => v == 0 || v == 1 || v == 2
  | .s0123 => v == 0 || v == 1 || v == 2 || v == 3

/-- Set-then-get of a 32-bit integer through a descriptor: the caller's
integer v enters the node's float-typed value field, nv_set writes it to
the backing uint32 cell, and nv_get reads it back into a fresh node. -/
def intRoundTrip (m : Machine) (i : ℕ) (v : ℕ) : ℚ :=
  let r := nv_set m { emptyNv with index := i, value := intToNvValue v }
  (nv_get r.2.1 { emptyNv with index := i }).2.value

/-- Set-then-get of a uint8 value through a descriptor (a value below 256
is exact in the float-typed node field). -/
def ui8RoundTrip (m : Machine) (i : ℕ) (v : ℕ) : ℚ :=
  let r := nv_set m { emptyNv with index := i, value := (v : ℚ) }
  (nv_get r.2.1 { emptyNv with index := i }).2.value

/-- Set-then-get of a float value through a descriptor. -/
def fltRoundTrip (m : Machine) (i : ℕ) (q : ℚ) : ℚ :=
  let r := nv_set m { emptyNv with index := i, value := q }
  (nv_get r.2.1 { emptyNv with index := i }).2.value

/-- Descriptor flags with every bit clear. -/
def noFlags : CfgFlags := ⟨false, false, false⟩

/-- Example machine for the units-aware setter: one descriptor bound to
set_flu/get_flu with target cell 0, machine in inches mode. -/
def mExFlu : Machine :=
  { singles := [{ group := [], token := [120, 118, 109], flags := noFlags,
                  precision := 3, def_value := 0, getK := .flu, setK := .flu,
                  target := 0 }],
    groups := [], units := .inches,
    store := fun _ => 0, nvm := fun _ => 0, fw_build := 0 }

/-- Example machine for integer round-trips: one descriptor bound to
set_int/get_int with target cell 0, millimeter mode. -/
def mExInt : Machine :=
  { singles := [{ group := [], token := [105, 105], flags := noFlags,
                  precision := 0, def_value := 0, getK := .int, setK := .int,
                  target := 0 }],
    groups := [], units := .millimeters,
    store := fun _ => 0, nvm := fun _ => 0, fw_build := 0 }

/-- Example machine for the range setter: one descriptor bound to
set_012/get_ui8 with target cell 0. -/
def mEx012 : Machine :=
  { singles := [{ group := [], token := [101, 106], flags := noFlags,
                  precision := 0, def_value := 0, getK := .ui8, setK := .s012,
                  target := 0 }],
    groups := [], units := .millimeters,
    store := fun _ => 0, nvm := fun _ => 0, fw_build := 0 }

/-- Example machine for the defaults sequencer: descriptor 0 is a plain
record (the version marker slot), descriptor 1 carries F_INITIALIZE but not
F_PERSIST, with a float setter, default 5 and target cell 1.  Every
nonvolatile record holds 99 while the build identifier is 1, so boot takes
the DEFAULTS path. -/
def mExInit : Machine :=
  { singles := [{ group := [], token := [102, 98], flags := noFlags,
                  precision := 0, def_value := 0, getK := .flt, setK := .flt,
                  target := 0 },
                { group := [], token := [97, 97], flags := ⟨true, false, false⟩,
                  precision := 0, def_value := 5, getK := .flt, setK := .flt,
                  target := 1 }],
    groups := [], units := .millimeters,
    store := fun _ => 0, nvm := fun _ => 99, fw_build := 1 }

/-- Example machine for the defaults sequencer with F_INITIALIZE and
F_PERSIST both set on descriptor 1. -/
def mExInitP : Machine :=
  { singles := [{ group := [], token := [102, 98], flags := noFlags,
                  precision := 0, def_value := 0, getK := .flt, setK := .flt,
                  target := 0 },
                { group := [], token := [97, 97], flags := ⟨true, true, false⟩,
                  precision := 0, def_value := 5, getK := .flt, setK := .flt,
                  target := 1 }],
    groups := [], units := .millimeters,
    store := fun _ => 0, nvm := fun _ => 99, fw_build := 1 }

/-- Example machine for group expansion: one single-valued descriptor of
group "x" with token "xvm", and one group-region entry whose group field is
also "x". -/
def mExGrp : Machine :=
  { singles := [{ group := [120], token := [120, 118, 109], flags := noFlags,
                  precision := 0, def_value := 0, getK := .flt, setK := .flt,
                  target := 0 }],
    groups := [{ group := [120], token := [120], flags := noFlags,
                 precision := 0, def_value := 0, getK := .nul, setK := .nul,
                 target := 0 }],
    units := .millimeters,
    store := fun _ => 0, nvm := fun _ => 0, fw_build := 0 }

/-- Example machine for the resolver witness: two descriptors with tokens
"xvm" and "xfr", the second of group "x". -/
def mExIdx : Machine :=
  { singles := [{ group := [], token := [102, 98], flags := noFlags,
                  precision := 0, def_value := 0, getK := .flt, setK := .flt,
                  target := 0 },
                { group := [120], token := [120, 102, 114], flags := noFlags,
                  precision := 0, def_value := 0, getK := .flt, setK := .flt,
                  target := 1 }],
    groups := [], units := .millimeters,
    store := fun _ => 0, nvm := fun _ => 0, fw_build := 0 }

theorem updateStore_same (st : ℕ → ℚ) (a : ℕ) (v : ℚ) :
    updateStore st a v a = v := by
  simp [updateStore]

theorem updateStore_ne (st : ℕ → ℚ) (a b : ℕ) (v : ℚ) (h : b ≠ a) :
    updateStore st a v b = st b := by
  simp [updateStore, h]

theorem ratFloor_eq_intFloor (q : ℚ) : q.floor = ⌊q⌋ := by
  rw [Rat.floor_def, Rat.floor_def']

theorem ratFloor_natCast (n : ℕ) : ((n : ℚ)).floor = (n : ℤ) := by
  rw [ratFloor_eq_intFloor, Int.floor_natCast]

theorem truncU8_natCast (n : ℕ) (h : n < 256) : truncU8 (n : ℚ) = n := by
  rw [truncU8, ratFloor_natCast, Int.toNat_natCast, Nat.mod_eq_of_lt h]

theorem truncU32_natCast (n : ℕ) (h : n < 2 ^ 32) : truncU32 (n : ℚ) = n := by
  rw [truncU32, ratFloor_natCast, Int.toNat_natCast, Nat.mod_eq_of_lt h]

theorem cellU32_natCast (n : ℕ) (h : n < 2 ^ 32) : cellU32 (n : ℚ) = n := by
  rw [cellU32, ratFloor_natCast, Int.toNat_natCast, Nat.mod_eq_of_lt h]

theorem roundF32Nat_small (n : ℕ) (h : n ≤ 2 ^ 24) : roundF32Nat n = n := by
  unfold roundF32Nat
  exact if_pos h

/-- C1: the units-aware setter set_flu, called in inches mode, converts the
caller-supplied value to millimeters for the backing storage — but, against
the claim (and the source's own comment that "the original nv->value is not
changed"), it performs the conversion on the node's value field in place,
so after the call the node's numeric value holds the converted millimeter
quantity, not the value the caller supplied. -/
theorem C1_set_flu_mutates_node_value :
    (nv_set mExFlu { emptyNv with index := 0, value := 1 }).2.2.value
      = 1 * MM_PER_INCH ∧
    (nv_set mExFlu { emptyNv with index := 0, value := 1 }).2.1.store 0
      = 1 * MM_PER_INCH ∧
    1 * MM_PER_INCH ≠ (1 : ℚ) ∧
    mExFlu.units = .inches := by
  refine ⟨?_, ?_, ?_, rfl⟩ <;>
    norm_num [nv_set, nv_index_max, mtable, mExFlu, itemAt, applySet, set_flu,
      emptyNv, updateStore, MM_PER_INCH]

/-- C2 counterexample: the 32-bit integer 16777217 = 2^24 + 1 does not
round-trip through set_int/get_int — the node's numeric value field is a
binary32 float, so the value reads back as 16777216. -/
theorem C2_int_roundtrip_cex :
    (itemAt (mtable mExInt) 0).setK = .int ∧
    (itemAt (mtable mExInt) 0).getK = .int ∧
    intRoundTrip mExInt 0 16777217 = 16777216 ∧
    (16777216 : ℚ) ≠ 16777217 := by
  refine ⟨by decide, by decide, ?_, by norm_num⟩
  have hl : Nat.log2 16777217 = 24 := by norm_num [Nat.log2]
  have h1 : roundF32Nat 16777217 = 16777216 := by norm_num [roundF32Nat, hl]
  have hc : ((16777216 : ℕ) : ℚ) = (16777216 : ℚ) := by norm_num
  have h3 : cellU32 (16777216 : ℚ) = 16777216 := by
    rw [← hc]; exact cellU32_natCast _ (by norm_num)
  have h2 : truncU32 (16777216 : ℚ) = 16777216 := by
    rw [← hc]; exact truncU32_natCast _ (by norm_num)
  have h4 : roundF32Nat 16777216 = 16777216 := roundF32Nat_small _ (by norm_num)
  simp only [intRoundTrip, intToNvValue, nv_set, nv_get, nv_index_max, mtable,
    mExInt, itemAt, applySet, applyGet, set_int, get_int, emptyNv,
    updateStore_same, h1, hc]
  norm_num [h2, h3, h4, updateStore_same]

/-- C3: nv_copy_string's capacity guard is off by one — when the write
offset plus the string length equals the capacity exactly, the copy is
accepted and the terminating NUL is written at byte index equal to the
capacity, one past the last valid arena index; here a 4-byte string is
copied into an empty capacity-4 arena and the byte at index 4 (initially 7)
is overwritten with the terminator. -/
theorem C3_copy_string_writes_at_capacity :
    (nv_copy_string 4 ⟨0, fun _ => 7⟩ emptyNv [97, 98, 99, 100]).stat = .ok ∧
    (nv_copy_string 4 ⟨0, fun _ => 7⟩ emptyNv [97, 98, 99, 100]).str.buf 4 = 0 ∧
    (7 : ℕ) ≠ 0 := by
  refine ⟨by decide, by decide, by decide⟩

/-- C4 counterexample: set_012 only checks the upper bound, so the value
1.5 — outside the legal set {0,1,2} — is not rejected: the setter returns
OK and writes its uint8 truncation 1 into the backing storage (which held
0 before). -/
theorem C4_set012_cex :
    (set_012 (mtable mEx012) mEx012.store
        { emptyNv with index := 0, value := 3 / 2 }).stat = .ok ∧
    (set_012 (mtable mEx012) mEx012.store
        { emptyNv with index := 0, value := 3 / 2 }).store 0 = 1 ∧
    ¬((3 : ℚ) / 2 = 0 ∨ (3 : ℚ) / 2 = 1 ∨ (3 : ℚ) / 2 = 2) ∧
    mEx012.store 0 = 0 := by
  have hf : ((3 : ℚ) / 2).floor = 1 := by norm_num [Rat.floor_def']
  refine ⟨?_, ?_, by norm_num, rfl⟩ <;>
    norm_num [set_012, set_ui8, mtable, mEx012, itemAt, emptyNv, updateStore,
      truncU8, hf]

/-- C5 counterexample: when the arena copy fails (capacity 0), nv_add_string
returns no node and the slot's kind stays empty — but the slot's token
field has already been overwritten with the caller's token, so the claim
that none of the slot's fields are modified fails. -/
theorem C5_add_string_cex :
    (nv_add_string 0 [] ⟨0, fun _ => 7⟩ [emptyNv] [109] [97]).node = none ∧
    ((nv_add_string 0 [] ⟨0, fun _ => 7⟩ [emptyNv] [109] [97]).body.getD 0
        emptyNv).valuetype = .empty ∧
    ((nv_add_string 0 [] ⟨0, fun _ => 7⟩ [emptyNv] [109] [97]).body.getD 0
        emptyNv).token = [109] ∧
    emptyNv.token ≠ [109] := by
  refine ⟨by decide, by decide, by decide, by decide⟩

/-- C6 counterexample: with a stored version marker (99) different from the
build identifier (1), descriptor 1 carries F_INITIALIZE but not F_PERSIST:
after config_init its backing storage holds the compiled default 5, but its
nonvolatile record still holds 99 — the defaults pass persists a descriptor
only when F_PERSIST is also set. -/
theorem C6_defaults_cex :
    mExInit.nvm 0 ≠ mExInit.fw_build ∧
    (itemAt (mtable mExInit) 1).flags.finit = true ∧
    (config_init mExInit).store 1 = 5 ∧
    (config_init mExInit).nvm 1 = 99 ∧
    (99 : ℚ) ≠ 5 := by
  have hr : List.range 2 = [0, 1] := rfl
  refine ⟨by norm_num [mExInit], by decide, ?_, ?_, by norm_num⟩ <;>
    norm_num [config_init, set_defaults, runDefaults, defaultsStep, nv_set,
      nv_persist, nv_index_lt_groups, write_persistent_value,
      read_persistent_value, fp_FALSE, nv_index_max, mtable, mExInit, itemAt,
      applySet, set_flt, emptyNv, updateStore, hr, TOKEN_LEN, noFlags,
      dfltItem]

/-- C9 counterexample: get_grp scans only the single-valued region of the
descriptor table, so a group-region entry whose group field equals the
requested group yields no child: expanding "x" on mExGrp produces one child
although two descriptors of the full table have group field "x". -/
theorem C9_get_grp_cex :
    ((get_grp mExGrp { emptyNv with token := [120] }).2.2).length = 1 ∧
    ((mtable mExGrp).filter
        (fun d => decide (d.group = [120]))).length = 2 := by
  refine ⟨by decide, by decide⟩

/-- C7: for a node whose resolved index is at or past the descriptor count,
every gatekeeper fails without invoking any bound behavior: nv_set and
nv_get return INTERNAL_RANGE_ERROR leaving machine and node untouched,
nv_print emits nothing, and nv_persist never reaches the nonvolatile write
service. -/
theorem C7_gatekeepers_reject_range (m : Machine) (nv : NvObj)
    (h : nv.index ≥ nv_index_max m) :
    nv_set m nv = (.internalRangeError, m, nv) ∧
    nv_get m nv = (.internalRangeError, nv) ∧
    nv_print m nv = [] ∧
    nv_persist m nv = m := by
  have hs : m.singles.length ≤ nv.index := by
    simp only [nv_index_max, mtable, List.length_append] at h
    omega
  refine ⟨?_, ?_, ?_, ?_⟩
  · simp [nv_set, h]
  · simp [nv_get, h]
  · simp [nv_print, h]
  · simp [nv_persist, nv_index_lt_groups, Nat.not_lt.mpr hs]

/-- C7 witness: index 99 on the one-descriptor machine mExFlu. -/
theorem C7_gatekeepers_reject_range_witness :
    ({ emptyNv with index := 99 } : NvObj).index ≥ nv_index_max mExFlu ∧
    nv_set mExFlu { emptyNv with index := 99 }
      = (.internalRangeError, mExFlu, { emptyNv with index := 99 }) ∧
    nv_persist mExFlu { emptyNv with index := 99 } = mExFlu := by
  have h := C7_gatekeepers_reject_range mExFlu { emptyNv with index := 99 }
    (by decide)
  exact ⟨by decide, h.1, h.2.2.2⟩

/-- C10: the units-aware getter get_flu reports the stored canonical
(millimeter) value unchanged in every units mode — the read-side conversion
is absent — and consequently a value set through set_flu in inches mode
reads back as its millimeter equivalent (the caller's value times
MM_PER_INCH). -/
theorem C10_get_flu_reports_canonical (m : Machine) (nv : NvObj) (v : ℚ)
    (hi : nv.index < nv_index_max m)
    (hget : (itemAt (mtable m) nv.index).getK = .flu)
    (hset : (itemAt (mtable m) nv.index).setK = .flu) :
    (∀ u : UnitsMode,
      (nv_get { m with units := u } nv).2.value
        = m.store (itemAt (mtable m) nv.index).target) ∧
    (nv_get ((nv_set { m with units := .inches }
        { nv with value := v }).2.1) nv).2.value = v * MM_PER_INCH := by
  have hne : ¬ (m.singles ++ m.groups).length ≤ nv.index := by
    simpa [nv_index_max, mtable] using hi
  simp only [mtable] at hget hset
  constructor
  · intro u
    simp only [nv_get, nv_index_max, mtable, ge_iff_le, hne, if_false,
      ite_false, hget, applyGet, get_flu, get_flt]
  · simp only [nv_set, nv_get, nv_index_max, mtable, ge_iff_le, hne, if_false,
      ite_false, hget, hset, applySet, applyGet, set_flu, get_flu, get_flt,
      updateStore_same]
    simp [updateStore_same]

/-- C10 witness: the one-descriptor flu machine, caller value 2 set in
inches mode. -/
theorem C10_get_flu_witness :
    0 < nv_index_max mExFlu ∧
    (nv_get ((nv_set { mExFlu with units := .inches }
        { ({ emptyNv with index := 0 } : NvObj) with value := 2 }).2.1)
      { emptyNv with index := 0 }).2.value = 2 * MM_PER_INCH := by
  refine ⟨by decide, ?_⟩
  exact (C10_get_flu_reports_canonical mExFlu { emptyNv with index := 0 } 2
    (by decide) (by decide) (by decide)).2

/-- C4 amended: each range-restricted setter rejects exactly the values
strictly greater than its largest legal value, leaving storage unchanged;
every other value (fractional ones included) is truncated to uint8 and
written with OK, and each legal integer value is written back exactly. -/
theorem C4_range_setters_amended (u : UnitsMode) (table : List CfgItem)
    (st : ℕ → ℚ) (nv : NvObj) (k : SetKind) (mx : ℚ)
    (hk : (k = .s01 ∧ mx = 1) ∨ (k = .s012 ∧ mx = 2) ∨ (k = .s0123 ∧ mx = 3)) :
    (mx < nv.value →
      applySet u table k st nv
        = { stat := .inputValueUnsupported, store := st, nv := nv }) ∧
    (nv.value ≤ mx →
      (applySet u table k st nv).stat = .ok ∧
      (applySet u table k st nv).store (itemAt table nv.index).target
        = ((truncU8 nv.value : ℕ) : ℚ) ∧
      ∀ a, a ≠ (itemAt table nv.index).target →
        (applySet u table k st nv).store a = st a) ∧
    (∀ n : ℕ, (n : ℚ) = nv.value → (n : ℚ) ≤ mx →
      (applySet u table k st nv).store (itemAt table nv.index).target
        = (n : ℚ)) := by
  have main : ∀ mxq : ℚ,
      applySet u table k st nv
        = (if nv.value > mxq then
            { stat := .inputValueUnsupported, store := st, nv := nv }
          else set_ui8 table st nv) →
      mxq ≤ 3 →
      (mxq < nv.value →
        applySet u table k st nv
          = { stat := .inputValueUnsupported, store := st, nv := nv }) ∧
      (nv.value ≤ mxq →
        (applySet u table k st nv).stat = .ok ∧
        (applySet u table k st nv).store (itemAt table nv.index).target
          = ((truncU8 nv.value : ℕ) : ℚ) ∧
        ∀ a, a ≠ (itemAt table nv.index).target →
          (applySet u table k st nv).store a = st a) ∧
      (∀ n : ℕ, (n : ℚ) = nv.value → (n : ℚ) ≤ mxq →
        (applySet u table k st nv).store (itemAt table nv.index).target
          = (n : ℚ)) := by
    intro mxq heq hmx3
    refine ⟨fun h => ?_, fun h => ?_, fun n hn hnmx => ?_⟩
    · rw [heq, if_pos h]
    · rw [heq, if_neg (not_lt.mpr h)]
      refine ⟨rfl, updateStore_same _ _ _, fun a ha => updateStore_ne _ _ _ _ ha⟩
    · have hle : nv.value ≤ mxq := hn ▸ hnmx
      rw [heq, if_neg (not_lt.mpr hle)]
      have hn3 : (n : ℚ) ≤ 3 := le_trans hnmx hmx3
      have hnn : n ≤ 3 := by exact_mod_cast hn3
      have ht : truncU8 nv.value = n := by
        rw [← hn]
        exact truncU8_natCast n (by omega)
      simp only [set_ui8, ht, updateStore_same]
  rcases hk with ⟨hk1, hk2⟩ | ⟨hk1, hk2⟩ | ⟨hk1, hk2⟩ <;> subst hk1 <;> subst hk2
  · exact main 1 rfl (by norm_num)
  · exact main 2 rfl (by norm_num)
  · exact main 3 rfl (by norm_num)

/-- C4 witness: set_012 rejects 3 leaving storage untouched and writes the
legal value 2 back exactly. -/
theorem C4_range_setters_witness :
    (applySet .millimeters (mtable mEx012) .s012 mEx012.store
        { emptyNv with index := 0, value := 3 }
      = { stat := .inputValueUnsupported, store := mEx012.store,
          nv := { emptyNv with index := 0, value := 3 } }) ∧
    (applySet .millimeters (mtable mEx012) .s012 mEx012.store
        { emptyNv with index := 0, value := 2 }).store
      (itemAt (mtable mEx012) 0).target = ((2 : ℕ) : ℚ) := by
  constructor
  · exact (C4_range_setters_amended .millimeters (mtable mEx012) mEx012.store
      { emptyNv with index := 0, value := 3 } .s012 2
      (Or.inr (Or.inl ⟨rfl, rfl⟩))).1 (by norm_num)
  · have h := (C4_range_setters_amended .millimeters (mtable mEx012)
      mEx012.store { emptyNv with index := 0, value := 2 } .s012 2
      (Or.inr (Or.inl ⟨rfl, rfl⟩))).2.2 2 (by norm_num) (by norm_num)
    simpa using h

/-- C2 amended: set-then-get round-trips exactly for values exactly
representable in the node's binary32 value field — every integer up to
2^24 through set_int/get_int, every uint8 value through set_ui8/get_ui8 —
and exactly the stored value for float kinds through set_flt/get_flt. -/
theorem C2_roundtrip_amended (m : Machine) (i : ℕ)
    (hi : i < nv_index_max m) :
    ((itemAt (mtable m) i).setK = .int → (itemAt (mtable m) i).getK = .int →
      ∀ v : ℕ, v ≤ 2 ^ 24 → intRoundTrip m i v = v) ∧
    ((itemAt (mtable m) i).setK = .ui8 → (itemAt (mtable m) i).getK = .ui8 →
      ∀ v : ℕ, v < 256 → ui8RoundTrip m i v = v) ∧
    ((itemAt (mtable m) i).setK = .flt → (itemAt (mtable m) i).getK = .flt →
      ∀ q : ℚ, fltRoundTrip m i q = q) := by
  have hne : ¬ (m.singles ++ m.groups).length ≤ i := by
    simpa [nv_index_max, mtable] using hi
  refine ⟨fun hs hg v hv => ?_, fun hs hg v hv => ?_, fun hs hg q => ?_⟩ <;>
    simp only [mtable] at hs hg
  · have hv32 : v < 2 ^ 32 := by
      have h2 : (2 : ℕ) ^ 24 < 2 ^ 32 := by norm_num
      omega
    simp only [intRoundTrip, nv_set, nv_get, nv_index_max, mtable, ge_iff_le,
      hne, if_false, ite_false, hs, hg, applySet, applyGet, set_int, get_int,
      intToNvValue, roundF32Nat_small v hv, truncU32_natCast v hv32,
      updateStore_same, cellU32_natCast v hv32]
  · simp only [ui8RoundTrip, nv_set, nv_get, nv_index_max, mtable, ge_iff_le,
      hne, if_false, ite_false, hs, hg, applySet, applyGet, set_ui8, get_ui8,
      truncU8_natCast v hv, updateStore_same]
  · simp only [fltRoundTrip, nv_set, nv_get, nv_index_max, mtable, ge_iff_le,
      hne, if_false, ite_false, hs, hg, applySet, applyGet, set_flt, get_flt,
      updateStore_same]

theorem findEmptySlot_spec (body : List NvObj) (i : ℕ)
    (h : findEmptySlot body = some i) :
    i < body.length ∧ (body.getD i emptyNv).valuetype = .empty := by
  induction body generalizing i with
  | nil => simp [findEmptySlot] at h
  | cons nv rest ih =>
    by_cases hvt : nv.valuetype ≠ .empty
    · rw [findEmptySlot, if_pos hvt] at h
      rcases Option.map_eq_some'.mp h with ⟨j, hj, hij⟩
      rcases ih j hj with ⟨hlen, hslot⟩
      subst hij
      exact ⟨by simpa using Nat.succ_lt_succ hlen, by simpa using hslot⟩
    · rw [findEmptySlot, if_neg hvt] at h
      obtain rfl : (0 : ℕ) = i := Option.some_injective _ h
      push_neg at hvt
      exact ⟨Nat.succ_pos _, by simpa using hvt⟩

/-- C5 amended: when the arena copy fails, nv_add_string returns no node
and leaves the arena untouched; the target slot keeps every field of its
previous (empty) state except the token, which has already been overwritten
with the caller's token — in particular its kind is still EMPTY. -/
theorem C5_add_string_amended (cap : ℕ) (table : List CfgItem) (s : NvStr)
    (body : List NvObj) (token src : Chars) (i : ℕ)
    (hfind : findEmptySlot body = some i)
    (hfull : s.wp + src.length > cap) :
    (nv_add_string cap table s body token src).node = none ∧
    (nv_add_string cap table s body token src).str = s ∧
    (nv_add_string cap table s body token src).body
      = body.set i
          { body.getD i emptyNv with token := token.take TOKEN_LEN } ∧
    (body.getD i emptyNv).valuetype = .empty := by
  have hslot := (findEmptySlot_spec body i hfind).2
  refine ⟨?_, ?_, ?_, hslot⟩ <;>
    simp only [nv_add_string, hfind, nv_copy_string, if_pos hfull] <;>
    simp

/-- C5 witness: one empty slot, zero-capacity arena, token "m". -/
theorem C5_add_string_witness :
    findEmptySlot [emptyNv] = some 0 ∧
    (0 : ℕ) + ([97] : Chars).length > 0 ∧
    (nv_add_string 0 [] ⟨0, fun _ => 7⟩ [emptyNv] [109] [97]).node = none ∧
    (nv_add_string 0 [] ⟨0, fun _ => 7⟩ [emptyNv] [109] [97]).body
      = [emptyNv].set 0
          { [emptyNv].getD 0 emptyNv with token := ([109] : Chars).take TOKEN_LEN } := by
  have h := C5_add_string_amended 0 [] ⟨0, fun _ => 7⟩ [emptyNv] [109] [97] 0
    (by decide) (by decide)
  exact ⟨by decide, by decide, h.1, h.2.2.1⟩

/-- C2 witness: 12345 round-trips exactly through the int descriptor of
mExInt. -/
theorem C2_roundtrip_witness :
    0 < nv_index_max mExInt ∧ intRoundTrip mExInt 0 12345 = 12345 := by
  refine ⟨by decide, ?_⟩
  exact (C2_roundtrip_amended mExInt 0 (by decide)).1 (by decide) (by decide)
    12345 (by norm_num)

theorem applyGet_token (u : UnitsMode) (table : List CfgItem) (k : GetKind)
    (st : ℕ → ℚ) (nv : NvObj) :
    (applyGet u table k st nv).nv.token = nv.token := by
  cases k <;> simp [applyGet, get_nul, get_ui8, get_int, get_flt, get_flu]

theorem applyGet_group (u : UnitsMode) (table : List CfgItem) (k : GetKind)
    (st : ℕ → ℚ) (nv : NvObj) :
    (applyGet u table k st nv).nv.group = nv.group := by
  cases k <;> simp [applyGet, get_nul, get_ui8, get_int, get_flt, get_flu]

theorem applyGet_depth (u : UnitsMode) (table : List CfgItem) (k : GetKind)
    (st : ℕ → ℚ) (nv : NvObj) :
    (applyGet u table k st nv).nv.depth = nv.depth := by
  cases k <;> simp [applyGet, get_nul, get_ui8, get_int, get_flt, get_flu]

theorem applyGet_vt_ne_parent (u : UnitsMode) (table : List CfgItem)
    (k : GetKind) (st : ℕ → ℚ) (nv : NvObj) :
    (applyGet u table k st nv).nv.valuetype ≠ .parent := by
  cases k <;> simp [applyGet, get_nul, get_ui8, get_int, get_flt, get_flu]

theorem nv_get_nvObj_pv_irrelevant (m : Machine) (nv : NvObj)
    (d1 d2 : ℕ) (t1 t2 : ValueType)
    (h : childDepth d1 t1 = childDepth d2 t2) :
    nv_get_nvObj m nv (some (d1, t1)) = nv_get_nvObj m nv (some (d2, t2)) := by
  simp only [nv_get_nvObj, nv_reset_nvObj, h]

theorem nv_get_nvObj_depth (m : Machine) (nv : NvObj) (d : ℕ)
    (t : ValueType) (hlt : nv.index < nv_index_max m) :
    (nv_get_nvObj m nv (some (d, t))).depth = childDepth d t := by
  rw [nv_get_nvObj, if_neg (by omega)]
  simp only [applyGet_depth]
  split_ifs <;> rfl

theorem nv_get_nvObj_not_parent (m : Machine) (nv : NvObj) (d : ℕ)
    (t : ValueType) (hlt : nv.index < nv_index_max m) :
    (nv_get_nvObj m nv (some (d, t))).valuetype ≠ .parent := by
  rw [nv_get_nvObj, if_neg (by omega)]
  exact applyGet_vt_ne_parent _ _ _ _ _

theorem grpChildren_eq (m : Machine) (q : Chars) (idxs : List ℕ)
    (hidx : ∀ i ∈ idxs, i < nv_index_max m) (D : ℕ) (T : ValueType) :
    grpChildren m q idxs D T
      = (idxs.filter
          (fun i => decide ((itemAt (mtable m) i).group = q))).map
          (fun i => nv_get_nvObj m { emptyNv with index := i }
            (some (childDepth D T, .empty))) := by
  induction idxs generalizing D T with
  | nil => rfl
  | cons i rest ih =>
    have hi : i < nv_index_max m := hidx i (by simp)
    have hrest : ∀ j ∈ rest, j < nv_index_max m :=
      fun j hj => hidx j (by simp [hj])
    by_cases hm : (itemAt (mtable m) i).group = q
    · have hcd : (nv_get_nvObj m { emptyNv with index := i }
          (some (D, T))).depth = childDepth D T :=
        nv_get_nvObj_depth m _ D T hi
      have hcp : (nv_get_nvObj m { emptyNv with index := i }
          (some (D, T))).valuetype ≠ .parent :=
        nv_get_nvObj_not_parent m _ D T hi
      have hchild : nv_get_nvObj m { emptyNv with index := i }
          (some (D, T))
          = nv_get_nvObj m { emptyNv with index := i }
              (some (childDepth D T, .empty)) :=
        nv_get_nvObj_pv_irrelevant m _ D (childDepth D T) T .empty
          (by simp [childDepth])
      have hnextD : childDepth
          (nv_get_nvObj m { emptyNv with index := i } (some (D, T))).depth
          (nv_get_nvObj m { emptyNv with index := i } (some (D, T))).valuetype
          = childDepth D T := by
        rw [childDepth, if_neg hcp, hcd]
      simp only [grpChildren, if_pos hm]
      rw [ih hrest]
      simp only [hnextD]
      rw [hchild]
      simp [List.filter_cons, hm]
    · simp only [grpChildren, if_neg hm]
      rw [ih hrest]
      simp [List.filter_cons, hm]

/-- C9 amended: get_grp marks the node as a parent marker (its token, the
requested group name, untouched) and produces as children exactly one node
per single-valued descriptor whose group field equals that name, in index
order, each populated via nv_get_nvObj (hence via the bound getter) at
depth one greater than the parent's and never itself a parent marker;
group-region descriptors are never scanned.  For every matching descriptor
with a nonempty group field the child's token is the descriptor's token
with the group prefix dropped and its group field is the group name, unless
the descriptor carries F_NOSTRIP, in which case the token is kept whole and
the group field is blanked instead. -/
theorem C9_get_grp_amended (m : Machine) (nv : NvObj) :
    (get_grp m nv).2.1.valuetype = .parent ∧
    (get_grp m nv).2.1.token = nv.token ∧
    (get_grp m nv).2.2
      = ((List.range m.singles.length).filter
          (fun i => decide ((itemAt (mtable m) i).group = nv.token))).map
          (fun i => nv_get_nvObj m { emptyNv with index := i }
            (some (nv.depth + 1, .empty))) ∧
    (∀ c ∈ (get_grp m nv).2.2,
      c.depth = nv.depth + 1 ∧ c.valuetype ≠ .parent) ∧
    (∀ i, i < m.singles.length →
      (itemAt (mtable m) i).group ≠ [] →
      (((itemAt (mtable m) i).flags.fnostrip = true →
        (nv_get_nvObj m { emptyNv with index := i }
            (some (nv.depth + 1, .empty))).token
          = (itemAt (mtable m) i).token ∧
        (nv_get_nvObj m { emptyNv with index := i }
            (some (nv.depth + 1, .empty))).group = []) ∧
      ((itemAt (mtable m) i).flags.fnostrip = false →
        (nv_get_nvObj m { emptyNv with index := i }
            (some (nv.depth + 1, .empty))).token
          = (itemAt (mtable m) i).token.drop
              (itemAt (mtable m) i).group.length ∧
        (nv_get_nvObj m { emptyNv with index := i }
            (some (nv.depth + 1, .empty))).group
          = (itemAt (mtable m) i).group))) := by
  have hidx : ∀ i ∈ List.range m.singles.length, i < nv_index_max m := by
    intro i hi
    have := List.mem_range.mp hi
    simp only [nv_index_max, mtable, List.length_append]
    omega
  have hmain := grpChildren_eq m nv.token (List.range m.singles.length)
    hidx nv.depth .parent
  have hcd : childDepth nv.depth .parent = nv.depth + 1 := by
    simp [childDepth]
  refine ⟨rfl, rfl, ?_, ?_, ?_⟩
  · show grpChildren m nv.token (List.range m.singles.length)
      nv.depth .parent = _
    rw [hmain]
    simp only [hcd]
  · intro c hc
    have hc2 : c ∈ grpChildren m nv.token
        (List.range m.singles.length) nv.depth .parent := hc
    rw [hmain] at hc2
    simp only [hcd] at hc2
    rcases List.mem_map.mp hc2 with ⟨i, hifil, rfl⟩
    have hir : i ∈ List.range m.singles.length := List.mem_filter.mp hifil |>.1
    have hilt : i < nv_index_max m := hidx i hir
    constructor
    · have := nv_get_nvObj_depth m { emptyNv with index := i }
        (nv.depth + 1) .empty hilt
      simpa [childDepth] using this
    · exact nv_get_nvObj_not_parent m _ _ _ hilt
  · intro i hilt hgne
    have hmax : i < nv_index_max m := by
      simp only [nv_index_max, mtable, List.length_append]
      omega
    have hguard : ¬ ({ emptyNv with index := i } : NvObj).index
        ≥ nv_index_max m := Nat.not_le.mpr hmax
    constructor
    · intro hns
      constructor <;>
      · rw [nv_get_nvObj, if_neg hguard]
        simp [applyGet_token, applyGet_group, hgne, hns]
    · intro hns
      constructor <;>
      · rw [nv_get_nvObj, if_neg hguard]
        simp [applyGet_token, applyGet_group, hgne, hns]

theorem rat_den_one_cast (v : ℚ) (h1 : v.den = 1) : ((v.num : ℤ) : ℚ) = v := by
  conv_rhs => rw [← Rat.num_div_den v]
  rw [h1]
  simp

theorem truncU32_exact (v : ℚ) (h1 : v.den = 1) (h2 : 0 ≤ v.num)
    (h3 : v.num < 2 ^ 32) : ((truncU32 v : ℕ) : ℚ) = v := by
  have hfl : v.floor = v.num := by
    rw [Rat.floor_def', h1]
    simp
  have hlt : v.num.toNat < 2 ^ 32 := by omega
  rw [truncU32, hfl, Nat.mod_eq_of_lt hlt, ← rat_den_one_cast v h1]
  exact_mod_cast Int.toNat_of_nonneg h2

theorem truncU8_exact (v : ℚ) (h1 : v.den = 1) (h2 : 0 ≤ v.num)
    (h3 : v.num < 256) : ((truncU8 v : ℕ) : ℚ) = v := by
  have hfl : v.floor = v.num := by
    rw [Rat.floor_def', h1]
    simp
  have hlt : v.num.toNat < 256 := by omega
  rw [truncU8, hfl, Nat.mod_eq_of_lt hlt, ← rat_den_one_cast v h1]
  exact_mod_cast Int.toNat_of_nonneg h2

theorem rat_lit_den_num (n : ℕ) : ((n : ℚ)).den = 1 ∧ ((n : ℚ)).num = n := by
  constructor
  · exact Rat.den_natCast n
  · exact Rat.num_natCast n

/-- A setter kind flagged storesExactly writes the node's value to the
descriptor's target unchanged (in millimeter mode), returns OK, and leaves
the node's numeric value and index fields intact. -/
theorem storesExactly_spec (table : List CfgItem) (k : SetKind)
    (st : ℕ → ℚ) (nv : NvObj)
    (hd : storesExactly k nv.value = true) :
    (applySet .millimeters table k st nv).store
        (itemAt table nv.index).target = nv.value ∧
    (applySet .millimeters table k st nv).nv.value = nv.value ∧
    (applySet .millimeters table k st nv).nv.index = nv.index ∧
    (applySet .millimeters table k st nv).stat = .ok := by
  cases k
  case nul => simp [storesExactly] at hd
  case flt => simp [applySet, set_flt, updateStore_same]
  case flu => simp [applySet, set_flu, updateStore_same]
  case int =>
    simp only [storesExactly, Bool.and_eq_true, beq_iff_eq,
      decide_eq_true_eq] at hd
    simp [applySet, set_int, updateStore_same,
      truncU32_exact nv.value hd.1.1 hd.1.2 hd.2]
  case ui8 =>
    simp only [storesExactly, Bool.and_eq_true, beq_iff_eq,
      decide_eq_true_eq] at hd
    simp [applySet, set_ui8, updateStore_same,
      truncU8_exact nv.value hd.1.1 hd.1.2 hd.2]
  case s01 =>
    simp only [storesExactly, Bool.or_eq_true, beq_iff_eq] at hd
    have hden : nv.value.den = 1 ∧ 0 ≤ nv.value.num ∧ nv.value.num < 256 := by
      rcases hd with h | h <;> rw [h] <;> norm_num
    have hle : ¬ nv.value > 1 := by rcases hd with h | h <;> rw [h] <;> norm_num
    simp [applySet, set_01, set_ui8, hle, updateStore_same,
      truncU8_exact nv.value hden.1 hden.2.1 hden.2.2]
  case s012 =>
    simp only [storesExactly, Bool.or_eq_true, beq_iff_eq] at hd
    have hden : nv.value.den = 1 ∧ 0 ≤ nv.value.num ∧ nv.value.num < 256 := by
      rcases hd with (h | h) | h <;> rw [h] <;> norm_num
    have hle : ¬ nv.value > 2 := by
      rcases hd with (h | h) | h <;> rw [h] <;> norm_num
    simp [applySet, set_012, set_ui8, hle, updateStore_same,
      truncU8_exact nv.value hden.1 hden.2.1 hden.2.2]
  case s0123 =>
    simp only [storesExactly, Bool.or_eq_true, beq_iff_eq] at hd
    have hden : nv.value.den = 1 ∧ 0 ≤ nv.value.num ∧ nv.value.num < 256 := by
      rcases hd with ((h | h) | h) | h <;> rw [h] <;> norm_num
    have hle : ¬ nv.value > 3 := by
      rcases hd with ((h | h) | h) | h <;> rw [h] <;> norm_num
    simp [applySet, set_0123, set_ui8, hle, updateStore_same,
      truncU8_exact nv.value hden.1 hden.2.1 hden.2.2]

theorem applySet_store_frame (u : UnitsMode) (table : List CfgItem)
    (k : SetKind) (st : ℕ → ℚ) (nv : NvObj) (a : ℕ)
    (ha : a ≠ (itemAt table nv.index).target) :
    (applySet u table k st nv).store a = st a := by
  cases k <;>
    simp only [applySet, set_nul, set_ui8, set_01, set_012, set_0123,
      set_int, set_flt, set_flu] <;>
    (try split_ifs) <;>
    simp [updateStore, ha]

theorem applySet_index (u : UnitsMode) (table : List CfgItem) (k : SetKind)
    (st : ℕ → ℚ) (nv : NvObj) :
    (applySet u table k st nv).nv.index = nv.index := by
  cases k <;>
    simp only [applySet, set_nul, set_ui8, set_01, set_012, set_0123,
      set_int, set_flt, set_flu] <;>
    (try split_ifs) <;> rfl

theorem nv_set_singles (m : Machine) (nv : NvObj) :
    (nv_set m nv).2.1.singles = m.singles := by
  unfold nv_set
  split_ifs <;> rfl

theorem nv_set_groups (m : Machine) (nv : NvObj) :
    (nv_set m nv).2.1.groups = m.groups := by
  unfold nv_set
  split_ifs <;> rfl

theorem nv_set_units (m : Machine) (nv : NvObj) :
    (nv_set m nv).2.1.units = m.units := by
  unfold nv_set
  split_ifs <;> rfl

theorem nv_set_fw_build (m : Machine) (nv : NvObj) :
    (nv_set m nv).2.1.fw_build = m.fw_build := by
  unfold nv_set
  split_ifs <;> rfl

theorem nv_set_nvm (m : Machine) (nv : NvObj) :
    (nv_set m nv).2.1.nvm = m.nvm := by
  unfold nv_set
  split_ifs <;> rfl

theorem nv_set_mtable (m : Machine) (nv : NvObj) :
    mtable (nv_set m nv).2.1 = mtable m := by
  simp [mtable, nv_set_singles, nv_set_groups]

theorem nv_set_index (m : Machine) (nv : NvObj) :
    (nv_set m nv).2.2.index = nv.index := by
  unfold nv_set
  split_ifs
  · rfl
  · simp [applySet_index]

theorem nv_set_store_frame (m : Machine) (nv : NvObj) (a : ℕ)
    (ha : a ≠ (itemAt (mtable m) nv.index).target) :
    (nv_set m nv).2.1.store a = m.store a := by
  unfold nv_set
  split_ifs
  · rfl
  · simp [applySet_store_frame _ _ _ _ _ _ ha]

theorem nv_set_effect (m : Machine) (nv : NvObj)
    (hin : nv.index < nv_index_max m)
    (hu : m.units = .millimeters)
    (hd : storesExactly (itemAt (mtable m) nv.index).setK nv.value = true) :
    (nv_set m nv).2.1.store (itemAt (mtable m) nv.index).target = nv.value ∧
    (nv_set m nv).2.2.value = nv.value := by
  have hne : ¬ (m.singles ++ m.groups).length ≤ nv.index := by
    simpa [nv_index_max, mtable] using hin
  have hA := storesExactly_spec (mtable m)
    (itemAt (mtable m) nv.index).setK m.store nv hd
  simp only [mtable] at hA
  constructor <;>
    simp only [nv_set, nv_index_max, mtable, ge_iff_le, hne, if_false,
      ite_false, hu] <;>
    [exact hA.1; exact hA.2.1]

theorem nv_persist_store (m : Machine) (nv : NvObj) :
    (nv_persist m nv).store = m.store := by
  unfold nv_persist write_persistent_value
  split_ifs <;> rfl

theorem nv_persist_singles (m : Machine) (nv : NvObj) :
    (nv_persist m nv).singles = m.singles := by
  unfold nv_persist write_persistent_value
  split_ifs <;> rfl

theorem nv_persist_groups (m : Machine) (nv : NvObj) :
    (nv_persist m nv).groups = m.groups := by
  unfold nv_persist write_persistent_value
  split_ifs <;> rfl

theorem nv_persist_units (m : Machine) (nv : NvObj) :
    (nv_persist m nv).units = m.units := by
  unfold nv_persist write_persistent_value
  split_ifs <;> rfl

theorem nv_persist_fw_build (m : Machine) (nv : NvObj) :
    (nv_persist m nv).fw_build = m.fw_build := by
  unfold nv_persist write_persistent_value
  split_ifs <;> rfl

theorem nv_persist_mtable (m : Machine) (nv : NvObj) :
    mtable (nv_persist m nv) = mtable m := by
  simp [mtable, nv_persist_singles, nv_persist_groups]

theorem nv_persist_nvm_frame (m : Machine) (nv : NvObj) (b : ℕ)
    (hb : b ≠ nv.index) :
    (nv_persist m nv).nvm b = m.nvm b := by
  unfold nv_persist write_persistent_value
  split_ifs <;> simp [updateStore, hb]

theorem nv_persist_nvm_effect (m : Machine) (nv : NvObj)
    (hlt : nv.index < m.singles.length)
    (hp : (itemAt (mtable m) nv.index).flags.fpersist = true) :
    (nv_persist m nv).nvm nv.index = nv.value := by
  unfold nv_persist write_persistent_value
  rw [if_neg (by simp [nv_index_lt_groups, hlt]), if_pos hp]
  simp [updateStore_same]

theorem nv_persist_nvm_skip (m : Machine) (nv : NvObj)
    (hp : (itemAt (mtable m) nv.index).flags.fpersist = false) :
    (nv_persist m nv).nvm = m.nvm := by
  unfold nv_persist write_persistent_value
  split_ifs with h1 h2
  all_goals first
    | rfl
    | simp_all

theorem setPersist_effect (m : Machine) (nv1 : NvObj)
    (hin : nv1.index < m.singles.length)
    (hu : m.units = .millimeters)
    (hd : storesExactly (itemAt (mtable m) nv1.index).setK nv1.value = true) :
    (nv_persist (nv_set m nv1).2.1 (nv_set m nv1).2.2).store
        (itemAt (mtable m) nv1.index).target = nv1.value ∧
    ((itemAt (mtable m) nv1.index).flags.fpersist = true →
      (nv_persist (nv_set m nv1).2.1 (nv_set m nv1).2.2).nvm nv1.index
        = nv1.value) ∧
    ((itemAt (mtable m) nv1.index).flags.fpersist = false →
      (nv_persist (nv_set m nv1).2.1 (nv_set m nv1).2.2).nvm nv1.index
        = m.nvm nv1.index) := by
  have hmax : nv1.index < nv_index_max m := by
    simp only [nv_index_max, mtable, List.length_append]
    omega
  have hset := nv_set_effect m nv1 hmax hu hd
  refine ⟨?_, ?_, ?_⟩
  · rw [nv_persist_store]
    exact hset.1
  · intro hp
    have h1 := nv_persist_nvm_effect (nv_set m nv1).2.1 (nv_set m nv1).2.2
      (by rw [nv_set_index, nv_set_singles]; exact hin)
      (by rw [nv_set_mtable, nv_set_index]; exact hp)
    rw [nv_set_index, hset.2] at h1
    exact h1
  · intro hp
    have h1 := nv_persist_nvm_skip (nv_set m nv1).2.1 (nv_set m nv1).2.2
      (by rw [nv_set_mtable, nv_set_index]; exact hp)
    rw [h1, nv_set_nvm]

theorem defaultsStep_singles (m : Machine) (nv : NvObj) (i : ℕ) :
    (defaultsStep m nv i).1.singles = m.singles := by
  simp only [defaultsStep]
  split_ifs
  · rw [nv_persist_singles, nv_set_singles]
  · rfl

theorem defaultsStep_groups (m : Machine) (nv : NvObj) (i : ℕ) :
    (defaultsStep m nv i).1.groups = m.groups := by
  simp only [defaultsStep]
  split_ifs
  · rw [nv_persist_groups, nv_set_groups]
  · rfl

theorem defaultsStep_units (m : Machine) (nv : NvObj) (i : ℕ) :
    (defaultsStep m nv i).1.units = m.units := by
  simp only [defaultsStep]
  split_ifs
  · rw [nv_persist_units, nv_set_units]
  · rfl

theorem defaultsStep_mtable (m : Machine) (nv : NvObj) (i : ℕ) :
    mtable (defaultsStep m nv i).1 = mtable m := by
  simp [mtable, defaultsStep_singles, defaultsStep_groups]

theorem setPersist_nvm_frame (m : Machine) (nv1 : NvObj) (b : ℕ)
    (hb : b ≠ nv1.index) :
    (nv_persist (nv_set m nv1).2.1 (nv_set m nv1).2.2).nvm b = m.nvm b := by
  have hb2 : b ≠ (nv_set m nv1).2.2.index := by
    rw [nv_set_index]
    exact hb
  rw [nv_persist_nvm_frame _ _ b hb2, nv_set_nvm]

theorem defaultsStep_nvm_frame (m : Machine) (nv : NvObj) (i b : ℕ)
    (hb : b ≠ i) :
    (defaultsStep m nv i).1.nvm b = m.nvm b := by
  simp only [defaultsStep]
  split_ifs
  · exact setPersist_nvm_frame m _ b hb
  · rfl

theorem defaultsStep_store_frame (m : Machine) (nv : NvObj) (i a : ℕ)
    (ha : (itemAt (mtable m) i).flags.finit = true →
      a ≠ (itemAt (mtable m) i).target) :
    (defaultsStep m nv i).1.store a = m.store a := by
  simp only [defaultsStep]
  split_ifs with hf
  · rw [nv_persist_store]
    exact nv_set_store_frame m _ a (ha hf)
  · rfl

theorem defaultsStep_effect (m : Machine) (nv : NvObj) (i : ℕ)
    (hin : i < m.singles.length)
    (hu : m.units = .millimeters)
    (hf : (itemAt (mtable m) i).flags.finit = true)
    (hd : storesExactly (itemAt (mtable m) i).setK
            (itemAt (mtable m) i).def_value = true) :
    (defaultsStep m nv i).1.store (itemAt (mtable m) i).target
        = (itemAt (mtable m) i).def_value ∧
    ((itemAt (mtable m) i).flags.fpersist = true →
      (defaultsStep m nv i).1.nvm i = (itemAt (mtable m) i).def_value) ∧
    ((itemAt (mtable m) i).flags.fpersist = false →
      (defaultsStep m nv i).1.nvm i = m.nvm i) := by
  simp only [defaultsStep]
  rw [if_pos hf]
  exact setPersist_effect m _ hin hu hd

theorem loadStep_singles (m : Machine) (nv : NvObj) (i : ℕ) :
    (loadStep m nv i).1.singles = m.singles := by
  simp only [loadStep]
  split_ifs
  · rw [nv_set_singles]
  · rfl

theorem loadStep_groups (m : Machine) (nv : NvObj) (i : ℕ) :
    (loadStep m nv i).1.groups = m.groups := by
  simp only [loadStep]
  split_ifs
  · rw [nv_set_groups]
  · rfl

theorem loadStep_units (m : Machine) (nv : NvObj) (i : ℕ) :
    (loadStep m nv i).1.units = m.units := by
  simp only [loadStep]
  split_ifs
  · rw [nv_set_units]
  · rfl

theorem loadStep_mtable (m : Machine) (nv : NvObj) (i : ℕ) :
    mtable (loadStep m nv i).1 = mtable m := by
  simp [mtable, loadStep_singles, loadStep_groups]

theorem loadStep_nvm (m : Machine) (nv : NvObj) (i : ℕ) :
    (loadStep m nv i).1.nvm = m.nvm := by
  simp only [loadStep]
  split_ifs
  · rw [nv_set_nvm]
  · rfl

theorem loadStep_store_frame (m : Machine) (nv : NvObj) (i a : ℕ)
    (ha : (itemAt (mtable m) i).flags.finit = true →
      a ≠ (itemAt (mtable m) i).target) :
    (loadStep m nv i).1.store a = m.store a := by
  simp only [loadStep]
  split_ifs with hf
  · exact nv_set_store_frame m _ a (ha hf)
  · rfl

theorem loadStep_effect (m : Machine) (nv : NvObj) (i : ℕ)
    (hin : i < m.singles.length)
    (hu : m.units = .millimeters)
    (hf : (itemAt (mtable m) i).flags.finit = true)
    (hd : storesExactly (itemAt (mtable m) i).setK (m.nvm i) = true) :
    (loadStep m nv i).1.store (itemAt (mtable m) i).target = m.nvm i := by
  have hmax : i < nv_index_max m := by
    simp only [nv_index_max, mtable, List.length_append]
    omega
  simp only [loadStep]
  rw [if_pos hf]
  exact (nv_set_effect m _ hmax hu hd).1

theorem runDefaults_singles (idxs : List ℕ) :
    ∀ (m : Machine) (nv : NvObj),
    (runDefaults m nv idxs).1.singles = m.singles := by
  induction idxs with
  | nil => intro m nv; rfl
  | cons i rest ih =>
    intro m nv
    simp only [runDefaults]
    rw [ih, defaultsStep_singles]

theorem runDefaults_units (idxs : List ℕ) :
    ∀ (m : Machine) (nv : NvObj),
    (runDefaults m nv idxs).1.units = m.units := by
  induction idxs with
  | nil => intro m nv; rfl
  | cons i rest ih =>
    intro m nv
    simp only [runDefaults]
    rw [ih, defaultsStep_units]

theorem runDefaults_nvm_frame (idxs : List ℕ) :
    ∀ (m : Machine) (nv : NvObj) (b : ℕ), b ∉ idxs →
    (runDefaults m nv idxs).1.nvm b = m.nvm b := by
  induction idxs with
  | nil => intro m nv b _; rfl
  | cons i rest ih =>
    intro m nv b hb
    simp only [runDefaults]
    rw [ih _ _ b (fun hc => hb (List.mem_cons_of_mem i hc)),
      defaultsStep_nvm_frame m nv i b
        (fun hc => hb (hc ▸ List.mem_cons_self i rest))]

theorem runDefaults_store_frame (idxs : List ℕ) :
    ∀ (m : Machine) (nv : NvObj) (a : ℕ),
    (∀ j ∈ idxs, (itemAt (mtable m) j).flags.finit = true →
      a ≠ (itemAt (mtable m) j).target) →
    (runDefaults m nv idxs).1.store a = m.store a := by
  induction idxs with
  | nil => intro m nv a _; rfl
  | cons i rest ih =>
    intro m nv a ha
    simp only [runDefaults]
    rw [ih _ _ a (fun j hj => by
        rw [defaultsStep_mtable]
        exact ha j (List.mem_cons_of_mem i hj)),
      defaultsStep_store_frame m nv i a (ha i (List.mem_cons_self i rest))]

theorem runDefaults_effect (idxs : List ℕ) :
    ∀ (m : Machine) (nv : NvObj) (i : ℕ),
    i ∈ idxs → idxs.Nodup →
    m.units = .millimeters →
    i < m.singles.length →
    (itemAt (mtable m) i).flags.finit = true →
    storesExactly (itemAt (mtable m) i).setK
      (itemAt (mtable m) i).def_value = true →
    (∀ j ∈ idxs, j ≠ i → (itemAt (mtable m) j).flags.finit = true →
      (itemAt (mtable m) j).target ≠ (itemAt (mtable m) i).target) →
    (runDefaults m nv idxs).1.store (itemAt (mtable m) i).target
        = (itemAt (mtable m) i).def_value ∧
    ((itemAt (mtable m) i).flags.fpersist = true →
      (runDefaults m nv idxs).1.nvm i = (itemAt (mtable m) i).def_value) ∧
    ((itemAt (mtable m) i).flags.fpersist = false →
      (runDefaults m nv idxs).1.nvm i = m.nvm i) := by
  induction idxs with
  | nil => intro m nv i hmem; simp at hmem
  | cons j rest ih =>
    intro m nv i hmem hnd hu hin hf hd hdist
    rcases List.mem_cons.mp hmem with heq | hmem2
    · subst heq
      have hirest : i ∉ rest := (List.nodup_cons.mp hnd).1
      have hstep := defaultsStep_effect m nv i hin hu hf hd
      simp only [runDefaults]
      refine ⟨?_, ?_, ?_⟩
      · rw [runDefaults_store_frame rest _ _ _ (fun k hk => by
          rw [defaultsStep_mtable]
          intro hkf
          have hki : k ≠ i := fun hc => hirest (hc ▸ hk)
          exact (hdist k (List.mem_cons_of_mem i hk) hki hkf).symm)]
        exact hstep.1
      · intro hp
        rw [runDefaults_nvm_frame rest _ _ i hirest]
        exact hstep.2.1 hp
      · intro hp
        rw [runDefaults_nvm_frame rest _ _ i hirest]
        exact hstep.2.2 hp
    · have hji : j ≠ i := fun hc =>
        (List.nodup_cons.mp hnd).1 (hc ▸ hmem2)
      have hnd2 : rest.Nodup := (List.nodup_cons.mp hnd).2
      simp only [runDefaults]
      have hres := ih (defaultsStep m nv j).1 (defaultsStep m nv j).2 i hmem2
        hnd2
        (by rw [defaultsStep_units]; exact hu)
        (by rw [defaultsStep_singles]; exact hin)
        (by rw [defaultsStep_mtable]; exact hf)
        (by rw [defaultsStep_mtable]; exact hd)
        (by
          intro k hk hki
          rw [defaultsStep_mtable]
          exact hdist k (List.mem_cons_of_mem j hk) hki)
      rw [defaultsStep_mtable] at hres
      refine ⟨hres.1, fun hp => hres.2.1 hp, fun hp => ?_⟩
      rw [hres.2.2 hp, defaultsStep_nvm_frame m nv j i (fun hc => hji hc.symm)]

theorem runLoad_singles (idxs : List ℕ) :
    ∀ (m : Machine) (nv : NvObj),
    (runLoad m nv idxs).1.singles = m.singles := by
  induction idxs with
  | nil => intro m nv; rfl
  | cons i rest ih =>
    intro m nv
    simp only [runLoad]
    rw [ih, loadStep_singles]

theorem runLoad_nvm (idxs : List ℕ) :
    ∀ (m : Machine) (nv : NvObj),
    (runLoad m nv idxs).1.nvm = m.nvm := by
  induction idxs with
  | nil => intro m nv; rfl
  | cons i rest ih =>
    intro m nv
    simp only [runLoad]
    rw [ih, loadStep_nvm]

theorem runLoad_store_frame (idxs : List ℕ) :
    ∀ (m : Machine) (nv : NvObj) (a : ℕ),
    (∀ j ∈ idxs, (itemAt (mtable m) j).flags.finit = true →
      a ≠ (itemAt (mtable m) j).target) →
    (runLoad m nv idxs).1.store a = m.store a := by
  induction idxs with
  | nil => intro m nv a _; rfl
  | cons i rest ih =>
    intro m nv a ha
    simp only [runLoad]
    rw [ih _ _ a (fun j hj => by
        rw [loadStep_mtable]
        exact ha j (List.mem_cons_of_mem i hj)),
      loadStep_store_frame m nv i a (ha i (List.mem_cons_self i rest))]

theorem runLoad_effect (idxs : List ℕ) :
    ∀ (m : Machine) (nv : NvObj) (i : ℕ),
    i ∈ idxs → idxs.Nodup →
    m.units = .millimeters →
    i < m.singles.length →
    (itemAt (mtable m) i).flags.finit = true →
    storesExactly (itemAt (mtable m) i).setK (m.nvm i) = true →
    (∀ j ∈ idxs, j ≠ i → (itemAt (mtable m) j).flags.finit = true →
      (itemAt (mtable m) j).target ≠ (itemAt (mtable m) i).target) →
    (runLoad m nv idxs).1.store (itemAt (mtable m) i).target = m.nvm i := by
  induction idxs with
  | nil => intro m nv i hmem; simp at hmem
  | cons j rest ih =>
    intro m nv i hmem hnd hu hin hf hd hdist
    rcases List.mem_cons.mp hmem with heq | hmem2
    · subst heq
      have hirest : i ∉ rest := (List.nodup_cons.mp hnd).1
      have hstep := loadStep_effect m nv i hin hu hf hd
      simp only [runLoad]
      rw [runLoad_store_frame rest _ _ _ (fun k hk => by
        rw [loadStep_mtable]
        intro hkf
        have hki : k ≠ i := fun hc => hirest (hc ▸ hk)
        exact (hdist k (List.mem_cons_of_mem i hk) hki hkf).symm)]
      exact hstep
    · have hnd2 : rest.Nodup := (List.nodup_cons.mp hnd).2
      simp only [runLoad]
      have hres := ih (loadStep m nv j).1 (loadStep m nv j).2 i hmem2 hnd2
        (by rw [loadStep_units]; exact hu)
        (by rw [loadStep_singles]; exact hin)
        (by rw [loadStep_mtable]; exact hf)
        (by rw [loadStep_mtable, loadStep_nvm]; exact hd)
        (by
          intro k hk hki
          rw [loadStep_mtable]
          exact hdist k (List.mem_cons_of_mem j hk) hki)
      rw [loadStep_mtable, loadStep_nvm] at hres
      exact hres

/-- C6 amended: after boot, when the stored version marker (record 0)
differs from the build identifier, every INITIALIZE-flagged single-valued
descriptor whose setter stores the value directly ends with its compiled
default in backing storage, and in its nonvolatile record exactly when it
also carries the PERSIST flag (without PERSIST the record keeps its prior
content); when the marker matches, the nonvolatile store is untouched and
every such INITIALIZE-flagged descriptor's backing storage is loaded from
its nonvolatile record. -/
theorem C6_defaults_amended (m : Machine)
    (hdS : ∀ i, i < m.singles.length →
      (itemAt (mtable m) i).flags.finit = true →
      storesExactly (itemAt (mtable m) i).setK
        (itemAt (mtable m) i).def_value = true)
    (hdL : ∀ i, i < m.singles.length →
      (itemAt (mtable m) i).flags.finit = true →
      storesExactly (itemAt (mtable m) i).setK (m.nvm i) = true)
    (hdist : ∀ i j, i < m.singles.length → j < m.singles.length → i ≠ j →
      (itemAt (mtable m) i).flags.finit = true →
      (itemAt (mtable m) j).flags.finit = true →
      (itemAt (mtable m) i).target ≠ (itemAt (mtable m) j).target) :
    (m.nvm 0 ≠ m.fw_build →
      ∀ i, i < m.singles.length →
        (itemAt (mtable m) i).flags.finit = true →
        ((config_init m).store (itemAt (mtable m) i).target
            = (itemAt (mtable m) i).def_value ∧
         ((itemAt (mtable m) i).flags.fpersist = true →
           (config_init m).nvm i = (itemAt (mtable m) i).def_value) ∧
         ((itemAt (mtable m) i).flags.fpersist = false →
           (config_init m).nvm i = m.nvm i))) ∧
    (m.nvm 0 = m.fw_build →
      ((config_init m).nvm = m.nvm ∧
       ∀ i, i < m.singles.length →
         (itemAt (mtable m) i).flags.finit = true →
         (config_init m).store (itemAt (mtable m) i).target = m.nvm i)) := by
  have hfp : fp_FALSE 1 = false := by norm_num [fp_FALSE]
  constructor
  · intro hne i hin hf
    have h := runDefaults_effect
      (List.range ({ m with units := .millimeters } : Machine).singles.length)
      { m with units := .millimeters }
      { emptyNv with index := 0, value := 1 }
      i (List.mem_range.mpr hin) (List.nodup_range _) rfl hin hf (hdS i hin hf)
      (fun j hj hji hjf =>
        hdist j i (List.mem_range.mp hj) hin hji hjf hf)
    simp only [config_init, read_persistent_value, set_defaults, hfp,
      Bool.false_eq_true, if_false, ite_false]
    rw [if_pos hne]
    exact h
  · intro heq
    have hload : ∀ i, i < m.singles.length →
        (itemAt (mtable m) i).flags.finit = true →
        (runLoad { m with units := .millimeters }
          (read_persistent_value { m with units := .millimeters }
            { emptyNv with index := 0 })
          (List.range
            ({ m with units := .millimeters } : Machine).singles.length)).1.store
          (itemAt (mtable m) i).target = m.nvm i := by
      intro i hin hf
      exact runLoad_effect
        (List.range ({ m with units := .millimeters } : Machine).singles.length)
        { m with units := .millimeters }
        (read_persistent_value { m with units := .millimeters }
          { emptyNv with index := 0 })
        i (List.mem_range.mpr hin) (List.nodup_range _) rfl hin hf
        (hdL i hin hf)
        (fun j hj hji hjf =>
          hdist j i (List.mem_range.mp hj) hin hji hjf hf)
    constructor
    · simp only [config_init, read_persistent_value]
      rw [if_neg (fun hc => hc heq)]
      exact runLoad_nvm _ _ _
    · intro i hin hf
      simp only [config_init, read_persistent_value]
      rw [if_neg (fun hc => hc heq)]
      exact hload i hin hf

/-- C6 witness: with marker 99 against build 1 on the table whose
descriptor 1 carries both INITIALIZE and PERSIST, boot leaves the default 5
in the backing cell and in nonvolatile record 1. -/
theorem C6_defaults_witness :
    mExInitP.nvm 0 ≠ mExInitP.fw_build ∧
    (itemAt (mtable mExInitP) 1).flags.finit = true ∧
    (config_init mExInitP).store (itemAt (mtable mExInitP) 1).target
      = (itemAt (mtable mExInitP) 1).def_value ∧
    ((itemAt (mtable mExInitP) 1).flags.fpersist = true →
      (config_init mExInitP).nvm 1 = (itemAt (mtable mExInitP) 1).def_value) := by
  have hne : mExInitP.nvm 0 ≠ mExInitP.fw_build := by norm_num [mExInitP]
  have h := (C6_defaults_amended mExInitP
      (by
        intro i hi hf
        have hi2 : i < 2 := by simpa [mExInitP] using hi
        interval_cases i <;> rfl)
      (by
        intro i hi hf
        have hi2 : i < 2 := by simpa [mExInitP] using hi
        interval_cases i <;> rfl)
      (by
        intro i j hi hj hij hfi hfj
        have hi2 : i < 2 := by simpa [mExInitP] using hi
        have hj2 : j < 2 := by simpa [mExInitP] using hj
        interval_cases i <;> interval_cases j <;>
          first
            | exact absurd rfl hij
            | decide)).1 hne 1 (by norm_num [mExInitP]) (by decide)
  exact ⟨hne, by decide, h.1, h.2.1⟩

theorem charAt_eq_getElem (t : Chars) (k : ℕ) (h : k < t.length) :
    charAt t k = t[k] :=
  List.getD_eq_getElem t 0 h

theorem charAt_eq_zero_iff (t : Chars) (ht : ∀ c ∈ t, c ≠ 0) (k : ℕ) :
    charAt t k = 0 ↔ t.length ≤ k := by
  unfold charAt
  rcases Nat.lt_or_ge k t.length with h | h
  · rw [List.getD_eq_getElem t 0 h]
    constructor
    · intro h0
      exact absurd h0 (ht _ (List.getElem_mem h))
    · intro hle
      exact absurd hle (by omega)
  · rw [List.getD_eq_default t 0 h]
    simp
    omega

theorem charAt_zero_mono (t : Chars) (ht : ∀ c ∈ t, c ≠ 0) (k1 k2 : ℕ)
    (hk : k1 ≤ k2) (h0 : charAt t k1 = 0) : charAt t k2 = 0 := by
  rw [charAt_eq_zero_iff t ht] at h0 ⊢
  omega

set_option maxHeartbeats 1000000 in
theorem tokMatch_iff_charAt (t s : Chars) (ht : ∀ c ∈ t, c ≠ 0)
    (hs : ∀ c ∈ s, c ≠ 0) :
    tokMatch t s = true ↔ ∀ j, j < 5 → charAt t j = charAt s j := by
  constructor
  · intro h
    unfold tokMatch at h
    split_ifs at h with h0 h1 h2 h3 h4 h5 h6 h7 h8
    · intro j hj
      interval_cases j
      · exact not_ne_iff.mp h0
      · rw [h1.1, h1.2]
      · rw [charAt_zero_mono t ht 1 2 (by omega) h1.1,
          charAt_zero_mono s hs 1 2 (by omega) h1.2]
      · rw [charAt_zero_mono t ht 1 3 (by omega) h1.1,
          charAt_zero_mono s hs 1 3 (by omega) h1.2]
      · rw [charAt_zero_mono t ht 1 4 (by omega) h1.1,
          charAt_zero_mono s hs 1 4 (by omega) h1.2]
    · intro j hj
      interval_cases j
      · exact not_ne_iff.mp h0
      · exact not_ne_iff.mp h2
      · rw [h3.1, h3.2]
      · rw [charAt_zero_mono t ht 2 3 (by omega) h3.1,
          charAt_zero_mono s hs 2 3 (by omega) h3.2]
      · rw [charAt_zero_mono t ht 2 4 (by omega) h3.1,
          charAt_zero_mono s hs 2 4 (by omega) h3.2]
    · intro j hj
      interval_cases j
      · exact not_ne_iff.mp h0
      · exact not_ne_iff.mp h2
      · exact not_ne_iff.mp h4
      · rw [h5.1, h5.2]
      · rw [charAt_zero_mono t ht 3 4 (by omega) h5.1,
          charAt_zero_mono s hs 3 4 (by omega) h5.2]
    · intro j hj
      interval_cases j
      · exact not_ne_iff.mp h0
      · exact not_ne_iff.mp h2
      · exact not_ne_iff.mp h4
      · exact not_ne_iff.mp h6
      · rw [h7.1, h7.2]
    · intro j hj
      interval_cases j
      · exact not_ne_iff.mp h0
      · exact not_ne_iff.mp h2
      · exact not_ne_iff.mp h4
      · exact not_ne_iff.mp h6
      · exact not_ne_iff.mp h8
  · intro hall
    unfold tokMatch
    split_ifs with h0 h1 h2 h3 h4 h5 h6 h7 h8
    · exact absurd (hall 0 (by norm_num)) h0
    · rfl
    · exact absurd (hall 1 (by norm_num)) h2
    · rfl
    · exact absurd (hall 2 (by norm_num)) h4
    · rfl
    · exact absurd (hall 3 (by norm_num)) h6
    · rfl
    · exact absurd (hall 4 (by norm_num)) h8
    · rfl

theorem tokMatch_spec (t s : Chars) (ht : ∀ c ∈ t, c ≠ 0)
    (hs : ∀ c ∈ s, c ≠ 0) :
    tokMatch t s = true ↔
      ((t = s ∧ t.length < 5) ∨
       (t.take 5 = s.take 5 ∧ 5 ≤ t.length ∧ 5 ≤ s.length)) := by
  rw [tokMatch_iff_charAt t s ht hs]
  constructor
  · intro hall
    rcases Nat.lt_or_ge t.length 5 with hL | hL
    · left
      have hz : charAt s t.length = 0 := by
        rw [← hall t.length hL]
        exact (charAt_eq_zero_iff t ht _).mpr (le_refl _)
      have hsle : s.length ≤ t.length := (charAt_eq_zero_iff s hs _).mp hz
      have hsl : s.length = t.length := by
        by_contra hne
        have h2 : charAt t s.length = 0 := by
          rw [hall s.length (by omega)]
          exact (charAt_eq_zero_iff s hs _).mpr (le_refl _)
        have := (charAt_eq_zero_iff t ht _).mp h2
        omega
      refine ⟨List.ext_getElem (by omega) ?_, hL⟩
      intro i h1 h2
      have he := hall i (by omega)
      rwa [charAt_eq_getElem t i h1, charAt_eq_getElem s i h2] at he
    · right
      have hS5 : 5 ≤ s.length := by
        by_contra hc
        push_neg at hc
        have hz : charAt t s.length = 0 := by
          rw [hall s.length (by omega)]
          exact (charAt_eq_zero_iff s hs _).mpr (le_refl _)
        have := (charAt_eq_zero_iff t ht _).mp hz
        omega
      refine ⟨List.ext_getElem (by simp; omega) ?_, hL, hS5⟩
      intro i h1 h2
      have hi5 : i < 5 := by simp at h1; omega
      have he := hall i hi5
      rw [charAt_eq_getElem t i (by omega), charAt_eq_getElem s i (by omega)]
        at he
      simpa [List.getElem_take] using he
  · intro hd
    rcases hd with ⟨heq, _⟩ | ⟨htake, hT5, hS5⟩
    · intro j hj
      rw [heq]
    · intro j hj
      rw [charAt_eq_getElem t j (by omega), charAt_eq_getElem s j (by omega)]
      have hjt : j < (t.take 5).length := by simp; omega
      have hjs : j < (s.take 5).length := by simp; omega
      have h1 : (t.take 5).getD j 0 = (s.take 5).getD j 0 := by rw [htake]
      rw [List.getD_eq_getElem _ 0 hjt, List.getD_eq_getElem _ 0 hjs] at h1
      simpa [List.getElem_take] using h1

theorem scanIndex_none (s : Chars) (l : List CfgItem) (k : ℕ)
    (h : ∀ j, j < l.length → tokMatch (itemAt l j).token s = false) :
    scanIndex s l k = NO_MATCH := by
  induction l generalizing k with
  | nil => rfl
  | cons d rest ih =>
    have h0 : tokMatch d.token s = false := by
      have := h 0 (by simp)
      simpa [itemAt] using this
    rw [scanIndex, if_neg (by simp [h0])]
    exact ih (k + 1) (fun j hj => by
      have := h (j + 1) (by simpa using Nat.succ_lt_succ hj)
      simpa [itemAt] using this)

theorem scanIndex_first (s : Chars) (l : List CfgItem) (k i : ℕ)
    (hi : i < l.length)
    (hm : tokMatch (itemAt l i).token s = true)
    (hprev : ∀ j, j < i → tokMatch (itemAt l j).token s = false) :
    scanIndex s l k = k + i := by
  induction l generalizing k i with
  | nil => simp at hi
  | cons d rest ih =>
    cases i with
    | zero =>
      have hm0 : tokMatch d.token s = true := by simpa [itemAt] using hm
      rw [scanIndex, if_pos (by simp [hm0])]
      omega
    | succ n =>
      have h0 : tokMatch d.token s = false := by
        have := hprev 0 (Nat.succ_pos n)
        simpa [itemAt] using this
      rw [scanIndex, if_neg (by simp [h0])]
      have hrec := ih (k + 1) n (by simpa using Nat.lt_of_succ_lt_succ hi)
        (by simpa [itemAt] using hm)
        (fun j hj => by
          have := hprev (j + 1) (Nat.succ_lt_succ hj)
          simpa [itemAt] using this)
      rw [hrec]
      omega

/-- C8: nv_get_index concatenates group then token, scans the descriptor
table linearly and returns the first index whose stored token matches the
query under tokMatch, or NO_MATCH after a full fruitless scan; and for
NUL-free strings tokMatch declares a match exactly when both strings
terminate together within the first five characters (being then equal) or
share their five leading characters. -/
theorem C8_resolver (table : List CfgItem) (group token : Chars) :
    ((∀ i, i < table.length →
        tokMatch (itemAt table i).token (group ++ token) = false) →
      nv_get_index table group token = NO_MATCH) ∧
    (∀ i, i < table.length →
      tokMatch (itemAt table i).token (group ++ token) = true →
      (∀ j, j < i →
        tokMatch (itemAt table j).token (group ++ token) = false) →
      nv_get_index table group token = i) ∧
    (∀ t s : Chars, (∀ c ∈ t, c ≠ 0) → (∀ c ∈ s, c ≠ 0) →
      (tokMatch t s = true ↔
        ((t = s ∧ t.length < 5) ∨
         (t.take 5 = s.take 5 ∧ 5 ≤ t.length ∧ 5 ≤ s.length)))) := by
  refine ⟨?_, ?_, tokMatch_spec⟩
  · intro hnone
    exact scanIndex_none (group ++ token) table 0 hnone
  · intro i hi hm hprev
    have := scanIndex_first (group ++ token) table 0 i hi hm hprev
    simpa using this

/-- C8 witness: on the two-descriptor table of mExIdx the query
group "x", token "fr" resolves to index 1, and an unknown token "z"
resolves to the NO_MATCH sentinel. -/
theorem C8_resolver_witness :
    (1 < (mtable mExIdx).length ∧
     tokMatch (itemAt (mtable mExIdx) 1).token ([120] ++ [102, 114]) = true ∧
     nv_get_index (mtable mExIdx) [120] [102, 114] = 1) ∧
    nv_get_index (mtable mExIdx) [] [122] = NO_MATCH := by
  constructor
  · refine ⟨by decide, by decide, ?_⟩
    refine (C8_resolver (mtable mExIdx) [120] [102, 114]).2.1 1 (by decide)
      (by decide) ?_
    intro j hj
    interval_cases j
    decide
  · refine (C8_resolver (mtable mExIdx) [] [122]).1 ?_
    intro i hi
    have h2 : i < 2 := by simpa [mtable, mExIdx] using hi
    interval_cases i <;> decide

/-- C9 witness: expanding group "x" on mExGrp yields the one matching
single-valued child. -/
theorem C9_get_grp_amended_witness :
    (get_grp mExGrp { emptyNv with token := [120] }).2.1.valuetype
      = .parent ∧
    (get_grp mExGrp { emptyNv with token := [120] }).2.2
      = ((List.range mExGrp.singles.length).filter
          (fun i => decide ((itemAt (mtable mExGrp) i).group
            = ({ emptyNv with token := [120] } : NvObj).token))).map
          (fun i => nv_get_nvObj mExGrp { emptyNv with index := i }
            (some (({ emptyNv with token := [120] } : NvObj).depth + 1,
              .empty))) := by
  have h := C9_get_grp_amended mExGrp { emptyNv with token := [120] }
  exact ⟨h.1, h.2.2.1⟩

end TinyGCfg
